import Mathlib

/-!
# openfx-supportext: matrix utilities and merge helpers

A shallow embedding of `ofxsMatrix2D.h` and `ofxsMerging.h`.

The C++ code computes over `double` (and, for the merge helpers, over a pixel
type `PIX`).  Here the scalars are the elements of an arbitrary field `K`
(exact arithmetic); the definitions are computable and can be evaluated over
`ℚ`, and the theorems are stated over `ℝ` or over every ordered field.  The
library functions of `<cmath>` that have no field-theoretic definition
(`std::cos`, `std::sin`, `std::sqrt`) are the operations of the class `CMath`, and
`std::log` is the operation of the class `CMathLog`.  Integer pixel types and the
integer rectangles are computed over `Int`, with the wrap-around of 32-bit `int`
written out.
-/

namespace OFX

/-- The functions of `<cmath>` used by the code: `std::cos`, `std::sin`, `std::sqrt`. -/
class CMath (K : Type) where
  /-- The library function `std::cos`. -/
  cos : K → K
  /-- The library function `std::sin`. -/
  sin : K → K
  /-- The library function `std::sqrt`. -/
  sqrt : K → K

/-- Over the real numbers `<cmath>` is the real cosine, sine and square root. -/
noncomputable instance realCMath : CMath ℝ where
  cos := Real.cos
  sin := Real.sin
  sqrt := Real.sqrt

/-! ## ofxsMatrix2D.h -/

section Matrix2D

variable {K : Type}

/-- The struct `Point3D`: a point `x, y, z` in homogeneous coordinates. -/
structure Point3D (K : Type) where
  x : K
  y : K
  z : K
deriving DecidableEq

/-- The struct `Matrix3x3`, laid out as `a b c / d e f / g h i`. -/
structure Matrix3x3 (K : Type) where
  a : K
  b : K
  c : K
  d : K
  e : K
  f : K
  g : K
  h : K
  i : K
deriving DecidableEq

/-- The constructor `Point3D::Point3D()`: `x(0), y(0), z(0)`. -/
def Point3D.new [Zero K] : Point3D K :=
  { x := 0, y := 0, z := 0 }

/-- The constructor `Matrix3x3::Matrix3x3()`, with the member initialisers of the
source: `a(1), b(0), c(0), d(1), e(0), f(0), g(0), h(0), i(0)`. -/
def Matrix3x3.new [Zero K] [One K] : Matrix3x3 K :=
  { a := 1, b := 0, c := 0, d := 1, e := 0, f := 0, g := 0, h := 0, i := 0 }

/-- The method `Matrix3x3::isIdentity`. -/
def Matrix3x3.isIdentity [Zero K] [One K] [DecidableEq K] (m : Matrix3x3 K) : Bool :=
  decide (m.a = 1) && decide (m.b = 0) && decide (m.c = 0) &&
  decide (m.d = 0) && decide (m.e = 1) && decide (m.f = 0) &&
  decide (m.g = 0) && decide (m.h = 0) && decide (m.i = 1)

/-- The function `operator*(const Matrix3x3 &, const Matrix3x3 &)`. -/
def Matrix3x3.mul [Add K] [Mul K] (m1 m2 : Matrix3x3 K) : Matrix3x3 K :=
  Matrix3x3.mk (m1.a * m2.a + m1.b * m2.d + m1.c * m2.g)
               (m1.a * m2.b + m1.b * m2.e + m1.c * m2.h)
               (m1.a * m2.c + m1.b * m2.f + m1.c * m2.i)
               (m1.d * m2.a + m1.e * m2.d + m1.f * m2.g)
               (m1.d * m2.b + m1.e * m2.e + m1.f * m2.h)
               (m1.d * m2.c + m1.e * m2.f + m1.f * m2.i)
               (m1.g * m2.a + m1.h * m2.d + m1.i * m2.g)
               (m1.g * m2.b + m1.h * m2.e + m1.i * m2.h)
               (m1.g * m2.c + m1.h * m2.f + m1.i * m2.i)

instance [Add K] [Mul K] : Mul (Matrix3x3 K) := ⟨Matrix3x3.mul⟩

/-- The function `operator*(const Matrix3x3 &, const Point3D &)`: `ret` is default
constructed, then its three fields are assigned. -/
def Matrix3x3.mulPoint [Zero K] [Add K] [Mul K] (m : Matrix3x3 K) (p : Point3D K) : Point3D K :=
  let ret : Point3D K := Point3D.new
  let ret := { ret with x := m.a * p.x + m.b * p.y + m.c * p.z }
  let ret := { ret with y := m.d * p.x + m.e * p.y + m.f * p.z }
  let ret := { ret with z := m.g * p.x + m.h * p.y + m.i * p.z }
  ret

instance [Zero K] [Add K] [Mul K] : HMul (Matrix3x3 K) (Point3D K) (Point3D K) :=
  ⟨Matrix3x3.mulPoint⟩

variable [Field K]

/-- The function `ofxsMatDeterminant`. -/
def ofxsMatDeterminant (M : Matrix3x3 K) : K :=
  M.a * (M.e * M.i - M.h * M.f)
    - M.b * (M.d * M.i - M.g * M.f)
    + M.c * (M.d * M.h - M.g * M.e)

/-- The function `ofxsMatScaleAdjoint`: `ret` is default constructed, then its nine
fields are assigned in the order of the source. -/
def ofxsMatScaleAdjoint (M : Matrix3x3 K) (s : K) : Matrix3x3 K :=
  let ret : Matrix3x3 K := Matrix3x3.new
  let ret := { ret with a := s * (M.e * M.i - M.h * M.f) }
  let ret := { ret with d := s * (M.f * M.g - M.d * M.i) }
  let ret := { ret with g := s * (M.d * M.h - M.e * M.g) }
  let ret := { ret with b := s * (M.c * M.h - M.b * M.i) }
  let ret := { ret with e := s * (M.a * M.i - M.c * M.g) }
  let ret := { ret with h := s * (M.b * M.g - M.a * M.h) }
  let ret := { ret with c := s * (M.b * M.f - M.c * M.e) }
  let ret := { ret with f := s * (M.c * M.d - M.a * M.f) }
  let ret := { ret with i := s * (M.a * M.e - M.b * M.d) }
  ret

/-- The function `ofxsMatInverse(const Matrix3x3 &)`. -/
def ofxsMatInverse (M : Matrix3x3 K) : Matrix3x3 K :=
  ofxsMatScaleAdjoint M (1 / ofxsMatDeterminant M)

/-- The overload `ofxsMatInverse(const Matrix3x3 &, double det)`. -/
def ofxsMatInverseDet (M : Matrix3x3 K) (det : K) : Matrix3x3 K :=
  ofxsMatScaleAdjoint M (1 / det)

/-- The function `ofxsMatRotation`. -/
def ofxsMatRotation [CMath K] (rads : K) : Matrix3x3 K :=
  let c := CMath.cos rads
  let s := CMath.sin rads
  Matrix3x3.mk c s 0 (-s) c 0 0 0 1

/-- The function `ofxsMatTranslation`. -/
def ofxsMatTranslation (x y : K) : Matrix3x3 K :=
  Matrix3x3.mk 1 0 x
               0 1 y
               0 0 1

/-- The function `ofxsMatScale(double, double)`. -/
def ofxsMatScale (x y : K) : Matrix3x3 K :=
  Matrix3x3.mk x 0 0
               0 y 0
               0 0 1

/-- The overload `ofxsMatScale(double)`. -/
def ofxsMatScale1 (s : K) : Matrix3x3 K :=
  ofxsMatScale s s

/-- The function `ofxsMatRotationAroundPoint`. -/
def ofxsMatRotationAroundPoint [CMath K] (rads px py : K) : Matrix3x3 K :=
  ofxsMatTranslation px py * (ofxsMatRotation rads * ofxsMatTranslation (-px) (-py))

/-- The function `ofxsMatScaleAroundPoint`. -/
def ofxsMatScaleAroundPoint (scaleX scaleY px py : K) : Matrix3x3 K :=
  ofxsMatTranslation px py * (ofxsMatScale scaleX scaleY * ofxsMatTranslation (-px) (-py))

/-- The function `ofxsMatSkewXY`. -/
def ofxsMatSkewXY (skewX skewY : K) (skewOrderYX : Bool) : Matrix3x3 K :=
  Matrix3x3.mk (if skewOrderYX then 1 else (1 + skewX * skewY)) skewX 0
               skewY (if skewOrderYX then (1 + skewX * skewY) else 1) 0
               0 0 1

/-- The function `ofxsMatInverseTransformCanonical`: the matrix transform from
destination to source; `*` associates to the left, as in C++. -/
def ofxsMatInverseTransformCanonical [CMath K] (translateX translateY scaleX scaleY skewX skewY : K)
    (skewOrderYX : Bool) (rads centerX centerY : K) : Matrix3x3 K :=
  ofxsMatTranslation centerX centerY *
  ofxsMatScale (1 / scaleX) (1 / scaleY) *
  ofxsMatSkewXY (-skewX) (-skewY) (!skewOrderYX) *
  ofxsMatRotation rads *
  ofxsMatTranslation (-translateX) (-translateY) *
  ofxsMatTranslation (-centerX) (-centerY)

/-- The function `ofxsMatTransformCanonical`: the matrix transform from source to
destination. -/
def ofxsMatTransformCanonical [CMath K] (translateX translateY scaleX scaleY skewX skewY : K)
    (skewOrderYX : Bool) (rads centerX centerY : K) : Matrix3x3 K :=
  ofxsMatTranslation centerX centerY *
  ofxsMatTranslation translateX translateY *
  ofxsMatRotation (-rads) *
  ofxsMatSkewXY skewX skewY skewOrderYX *
  ofxsMatScale scaleX scaleY *
  ofxsMatTranslation (-centerX) (-centerY)

/-- The function `ofxsMatPixelToCanonical`. -/
def ofxsMatPixelToCanonical (pixelaspectratio renderscaleX renderscaleY : K) (fielded : Bool) :
    Matrix3x3 K :=
  ofxsMatScale (pixelaspectratio / renderscaleX)
    (1 / (renderscaleY * (if fielded then 0.5 else 1.0)))

/-- The function `ofxsMatCanonicalToPixel`. -/
def ofxsMatCanonicalToPixel (pixelaspectratio renderscaleX renderscaleY : K) (fielded : Bool) :
    Matrix3x3 K :=
  ofxsMatScale (renderscaleX / pixelaspectratio)
    (renderscaleY * (if fielded then 0.5 else 1.0))

/-- The function `ofxsMatInverseTransformPixel`. -/
def ofxsMatInverseTransformPixel [CMath K] (pixelaspectratio renderscaleX renderscaleY : K)
    (fielded : Bool) (translateX translateY scaleX scaleY skewX skewY : K)
    (skewOrderYX : Bool) (rads centerX centerY : K) : Matrix3x3 K :=
  ofxsMatCanonicalToPixel pixelaspectratio renderscaleX renderscaleY fielded *
  ofxsMatInverseTransformCanonical translateX translateY scaleX scaleY skewX skewY skewOrderYX
    rads centerX centerY *
  ofxsMatPixelToCanonical pixelaspectratio renderscaleX renderscaleY fielded

/-- The function `ofxsMatTransformPixel`. -/
def ofxsMatTransformPixel [CMath K] (pixelaspectratio renderscaleX renderscaleY : K)
    (fielded : Bool) (translateX translateY scaleX scaleY skewX skewY : K)
    (skewOrderYX : Bool) (rads centerX centerY : K) : Matrix3x3 K :=
  ofxsMatCanonicalToPixel pixelaspectratio renderscaleX renderscaleY fielded *
  ofxsMatTransformCanonical translateX translateY scaleX scaleY skewX skewY skewOrderYX
    rads centerX centerY *
  ofxsMatPixelToCanonical pixelaspectratio renderscaleX renderscaleY fielded

/-- The matrix of the standard theory with the same entries, read row-major: the
reference against which `operator*` and `ofxsMatDeterminant` are compared. -/
def Matrix3x3.toMatrix (m : Matrix3x3 K) : Matrix (Fin 3) (Fin 3) K :=
  Matrix.of ![![m.a, m.b, m.c], ![m.d, m.e, m.f], ![m.g, m.h, m.i]]

/-- The identity matrix as the specification writes it: `a = e = i = 1`, all other
fields `0`. -/
def Matrix3x3.identity : Matrix3x3 K :=
  Matrix3x3.mk 1 0 0 0 1 0 0 0 1

end Matrix2D

/-! ## ofxsMerging.h

The pixel type `PIX` is modelled by an ordered field `K`: the floating-point
instantiation of the templates in exact arithmetic, where the conversions `PIX(...)`
and `(double)...` are the identity.  The template parameter `int maxValue` is an
integer, converted to `K` where the code uses it in arithmetic.  An array parameter
`const PIX A[4]` and the output pointer `PIX* dst` are maps from an index to a value.
-/

namespace MergeImages2D

/-- The enum `MergingFunctionEnum`, represented by its underlying integer value: the
34 enumerators are the values `0` to `33`, and any other integer is a value that is
none of the enumerators. -/
abbrev MergingFunctionEnum := Int

def eMergeATop : MergingFunctionEnum := 0
def eMergeAverage : MergingFunctionEnum := 1
def eMergeColorBurn : MergingFunctionEnum := 2
def eMergeColorDodge : MergingFunctionEnum := 3
def eMergeConjointOver : MergingFunctionEnum := 4
def eMergeCopy : MergingFunctionEnum := 5
def eMergeDifference : MergingFunctionEnum := 6
def eMergeDisjointOver : MergingFunctionEnum := 7
def eMergeDivide : MergingFunctionEnum := 8
def eMergeExclusion : MergingFunctionEnum := 9
def eMergeFreeze : MergingFunctionEnum := 10
def eMergeFrom : MergingFunctionEnum := 11
def eMergeGeometric : MergingFunctionEnum := 12
def eMergeHardLight : MergingFunctionEnum := 13
def eMergeHypot : MergingFunctionEnum := 14
def eMergeIn : MergingFunctionEnum := 15
def eMergeInterpolated : MergingFunctionEnum := 16
def eMergeMask : MergingFunctionEnum := 17
def eMergeMatte : MergingFunctionEnum := 18
def eMergeLighten : MergingFunctionEnum := 19
def eMergeDarken : MergingFunctionEnum := 20
def eMergeMinus : MergingFunctionEnum := 21
def eMergeMultiply : MergingFunctionEnum := 22
def eMergeOut : MergingFunctionEnum := 23
def eMergeOver : MergingFunctionEnum := 24
def eMergeOverlay : MergingFunctionEnum := 25
def eMergePinLight : MergingFunctionEnum := 26
def eMergePlus : MergingFunctionEnum := 27
def eMergeReflect : MergingFunctionEnum := 28
def eMergeScreen : MergingFunctionEnum := 29
def eMergeSoftLight : MergingFunctionEnum := 30
def eMergeStencil : MergingFunctionEnum := 31
def eMergeUnder : MergingFunctionEnum := 32
def eMergeXOR : MergingFunctionEnum := 33

/-- The 34 enumerators of `MergingFunctionEnum`, in the order of their declaration. -/
def allMergingFunctions : List MergingFunctionEnum :=
  [eMergeATop, eMergeAverage, eMergeColorBurn, eMergeColorDodge, eMergeConjointOver,
   eMergeCopy, eMergeDifference, eMergeDisjointOver, eMergeDivide, eMergeExclusion,
   eMergeFreeze, eMergeFrom, eMergeGeometric, eMergeHardLight, eMergeHypot, eMergeIn,
   eMergeInterpolated, eMergeMask, eMergeMatte, eMergeLighten, eMergeDarken, eMergeMinus,
   eMergeMultiply, eMergeOut, eMergeOver, eMergeOverlay, eMergePinLight, eMergePlus,
   eMergeReflect, eMergeScreen, eMergeSoftLight, eMergeStencil, eMergeUnder, eMergeXOR]

/-- The function `isMaskable`: the two groups of `case` labels of the `switch`, each
a test that `operation` is one of the labels, and the `return true` that follows the
`switch`. -/
def isMaskable (operation : MergingFunctionEnum) : Bool :=
  if
    operation = eMergeAverage ∨ operation = eMergeColorBurn ∨ operation = eMergeColorDodge ∨
    operation = eMergeDifference ∨ operation = eMergeDivide ∨ operation = eMergeExclusion ∨
    operation = eMergeFrom ∨ operation = eMergeFreeze ∨ operation = eMergeGeometric ∨
    operation = eMergeHardLight ∨ operation = eMergeHypot ∨ operation = eMergeInterpolated ∨
    operation = eMergeLighten ∨ operation = eMergeDarken ∨ operation = eMergeMinus ∨
    operation = eMergeMultiply ∨ operation = eMergeOverlay ∨ operation = eMergePinLight ∨
    operation = eMergePlus ∨ operation = eMergeReflect ∨ operation = eMergeSoftLight
  then
    true
  else if
    operation = eMergeATop ∨ operation = eMergeConjointOver ∨ operation = eMergeCopy ∨
    operation = eMergeDisjointOver ∨ operation = eMergeIn ∨ operation = eMergeMask ∨
    operation = eMergeMatte ∨ operation = eMergeOut ∨ operation = eMergeOver ∨
    operation = eMergeScreen ∨ operation = eMergeStencil ∨ operation = eMergeUnder ∨
    operation = eMergeXOR
  then
    false
  else
    true

/-- The macro `M_PI` as this header defines it. -/
def M_PI {K : Type} [Field K] : K := 3.14159265358979323846264338327950288

section Functors

variable {K : Type} [LinearOrderedField K]

/-- The function `averageFunctor`. -/
def averageFunctor (A B : K) : K :=
  (A + B) / 2

/-- The function `copyFunctor`. -/
def copyFunctor (A _B : K) : K :=
  A

/-- The function `plusFunctor`. -/
def plusFunctor (A B : K) : K :=
  A + B

/-- The function `differenceFunctor`. -/
def differenceFunctor (A B : K) : K :=
  |A - B|

/-- The function `divideFunctor`. -/
def divideFunctor (A B : K) : K :=
  if B ≤ 0 then 0 else A / B

/-- The function `exclusionFunctor`. -/
def exclusionFunctor (maxValue : Int) (A B : K) : K :=
  A + B - 2 * A * B / (maxValue : K)

/-- The function `fromFunctor`. -/
def fromFunctor (A B : K) : K :=
  B - A

/-- The function `geometricFunctor`. -/
def geometricFunctor (A B : K) : K :=
  2 * A * B / (A + B)

/-- The function `multiplyFunctor`. -/
def multiplyFunctor (maxValue : Int) (A B : K) : K :=
  A * B / (maxValue : K)

/-- The function `screenFunctor`. -/
def screenFunctor (maxValue : Int) (A B : K) : K :=
  A + B - A * B / (maxValue : K)

/-- The function `hardLightFunctor`. -/
def hardLightFunctor (maxValue : Int) (A B : K) : K :=
  if A < (maxValue : K) / 2 then
    2 * A * B / (maxValue : K)
  else
    maxValue * (1 - 2 * (1 - A / (maxValue : K)) * (1 - B / (maxValue : K)))

/-- The function `softLightFunctor`. -/
def softLightFunctor [CMath K] (maxValue : Int) (A B : K) : K :=
  let An := A / (maxValue : K)
  let Bn := B / (maxValue : K)
  if 2 * An ≤ 1 then
    maxValue * (Bn - (1 - 2 * An) * Bn * (1 - Bn))
  else if 4 * Bn ≤ 1 then
    maxValue * (Bn + (2 * An - 1) * (4 * Bn * (4 * Bn + 1) * (Bn - 1) + 7 * Bn))
  else
    maxValue * (Bn + (2 * An - 1) * (CMath.sqrt Bn - Bn))

/-- The function `hypotFunctor`. -/
def hypotFunctor [CMath K] (A B : K) : K :=
  CMath.sqrt (A * A + B * B)

/-- The function `minusFunctor`. -/
def minusFunctor (A B : K) : K :=
  A - B

/-- The function `darkenFunctor`. -/
def darkenFunctor (A B : K) : K :=
  min A B

/-- The function `lightenFunctor`. -/
def lightenFunctor (A B : K) : K :=
  max A B

/-- The function `overlayFunctor`. -/
def overlayFunctor (maxValue : Int) (A B : K) : K :=
  let An := A / (maxValue : K)
  let Bn := B / (maxValue : K)
  if 2 * Bn ≤ 1 then
    maxValue * (2 * An * Bn)
  else
    maxValue * (1 - 2 * (1 - Bn) * (1 - An))

/-- The function `colorDodgeFunctor`. -/
def colorDodgeFunctor (maxValue : Int) (A B : K) : K :=
  if A ≥ (maxValue : K) then
    A
  else
    maxValue * min 1 (B / ((maxValue : K) - A))

/-- The function `colorBurnFunctor`. -/
def colorBurnFunctor (maxValue : Int) (A B : K) : K :=
  if A ≤ 0 then
    A
  else
    maxValue * (1 - min 1 (((maxValue : K) - B) / A))

/-- The function `pinLightFunctor`. -/
def pinLightFunctor (maxValue : Int) (A B : K) : K :=
  let max2 : K := (maxValue : K) / 2
  if A ≥ max2 then max B ((A - max2) * 2) else min B (A * 2)

/-- The function `reflectFunctor`. -/
def reflectFunctor (maxValue : Int) (A B : K) : K :=
  if B ≥ (maxValue : K) then
    maxValue
  else
    min (maxValue : K) (A * A / ((maxValue : K) - B))

/-- The function `freezeFunctor`. -/
def freezeFunctor [CMath K] (maxValue : Int) (A B : K) : K :=
  if B ≤ 0 then
    0
  else
    let An := A / (maxValue : K)
    let Bn := B / (maxValue : K)
    max 0 (maxValue * (1 - CMath.sqrt (max 0 (1 - An)) / Bn))

/-- The function `interpolatedFunctor`. -/
def interpolatedFunctor [CMath K] (maxValue : Int) (A B : K) : K :=
  let An := A / (maxValue : K)
  let Bn := B / (maxValue : K)
  maxValue * (0.5 - 0.25 * (CMath.cos (M_PI * An) - CMath.cos (M_PI * Bn)))

/-- The function `atopFunctor`. -/
def atopFunctor (maxValue : Int) (A B alphaA alphaB : K) : K :=
  A * alphaB / (maxValue : K) + B * (1 - alphaA / (maxValue : K))

/-- The function `conjointOverFunctor`. -/
def conjointOverFunctor (maxValue : Int) (A B alphaA alphaB : K) : K :=
  if alphaA > alphaB then
    A
  else
    A + B * ((maxValue : K) - alphaA) / alphaB

/-- The function `disjointOverFunctor`. -/
def disjointOverFunctor (maxValue : Int) (A B alphaA alphaB : K) : K :=
  if alphaA + alphaB < (maxValue : K) then
    A + B
  else
    A + B * ((maxValue : K) - alphaA) / alphaB

/-- The function `inFunctor`. -/
def inFunctor (maxValue : Int) (A _B _alphaA alphaB : K) : K :=
  A * alphaB / (maxValue : K)

/-- The function `matteFunctor`. -/
def matteFunctor (maxValue : Int) (A B alphaA _alphaB : K) : K :=
  A * alphaA / (maxValue : K) + B * (1 - alphaA / (maxValue : K))

/-- The function `maskFunctor`. -/
def maskFunctor (maxValue : Int) (_A B alphaA _alphaB : K) : K :=
  B * alphaA / (maxValue : K)

/-- The function `outFunctor`. -/
def outFunctor (maxValue : Int) (A _B _alphaA alphaB : K) : K :=
  A * (1 - alphaB / (maxValue : K))

/-- The function `overFunctor`. -/
def overFunctor (maxValue : Int) (A B alphaA _alphaB : K) : K :=
  A + B * (1 - alphaA / (maxValue : K))

/-- The function `stencilFunctor`. -/
def stencilFunctor (maxValue : Int) (_A B alphaA _alphaB : K) : K :=
  B * (1 - alphaA / (maxValue : K))

/-- The function `underFunctor`. -/
def underFunctor (maxValue : Int) (A B _alphaA alphaB : K) : K :=
  A * (1 - alphaB / (maxValue : K)) + B

/-- The function `xorFunctor`. -/
def xorFunctor (maxValue : Int) (A B alphaA alphaB : K) : K :=
  A * (1 - alphaB / (maxValue : K)) + B * (1 - alphaA / (maxValue : K))

/-- The `switch (f)` statement in the loop of `mergePixel`: the value assigned to
`dst[i]`, from `Ai = A[i]`, `Bi = B[i]` and the two alphas `a = A[3]`, `b = B[3]`.
Each `case` is a test that `f` is its label, and `default` is the last `else`. -/
def mergePixelSwitch [CMath K] (f : MergingFunctionEnum) (maxValue : Int) (Ai Bi a b : K) : K :=
  if f = eMergeATop then atopFunctor maxValue Ai Bi a b
  else if f = eMergeAverage then averageFunctor Ai Bi
  else if f = eMergeColorBurn then colorBurnFunctor maxValue Ai Bi
  else if f = eMergeColorDodge then colorDodgeFunctor maxValue Ai Bi
  else if f = eMergeConjointOver then conjointOverFunctor maxValue Ai Bi a b
  else if f = eMergeCopy then copyFunctor Ai Bi
  else if f = eMergeDifference then differenceFunctor Ai Bi
  else if f = eMergeDisjointOver then disjointOverFunctor maxValue Ai Bi a b
  else if f = eMergeDivide then divideFunctor Ai Bi
  else if f = eMergeExclusion then exclusionFunctor maxValue Ai Bi
  else if f = eMergeFreeze then freezeFunctor maxValue Ai Bi
  else if f = eMergeFrom then fromFunctor Ai Bi
  else if f = eMergeGeometric then geometricFunctor Ai Bi
  else if f = eMergeHardLight then hardLightFunctor maxValue Ai Bi
  else if f = eMergeHypot then hypotFunctor Ai Bi
  else if f = eMergeIn then inFunctor maxValue Ai Bi a b
  else if f = eMergeInterpolated then interpolatedFunctor maxValue Ai Bi
  else if f = eMergeMask then maskFunctor maxValue Ai Bi a b
  else if f = eMergeMatte then matteFunctor maxValue Ai Bi a b
  else if f = eMergeLighten then lightenFunctor Ai Bi
  else if f = eMergeDarken then darkenFunctor Ai Bi
  else if f = eMergeMinus then minusFunctor Ai Bi
  else if f = eMergeMultiply then multiplyFunctor maxValue Ai Bi
  else if f = eMergeOut then outFunctor maxValue Ai Bi a b
  else if f = eMergeOver then overFunctor maxValue Ai Bi a b
  else if f = eMergeOverlay then overlayFunctor maxValue Ai Bi
  else if f = eMergePinLight then pinLightFunctor maxValue Ai Bi
  else if f = eMergePlus then plusFunctor Ai Bi
  else if f = eMergeReflect then reflectFunctor maxValue Ai Bi
  else if f = eMergeScreen then screenFunctor maxValue Ai Bi
  else if f = eMergeSoftLight then softLightFunctor maxValue Ai Bi
  else if f = eMergeStencil then stencilFunctor maxValue Ai Bi a b
  else if f = eMergeUnder then underFunctor maxValue Ai Bi a b
  else if f = eMergeXOR then xorFunctor maxValue Ai Bi a b
  else 0

/-- The function `mergePixel<f, PIX, nComponents, maxValue>`: it returns the contents
of `dst` after the call.  The loop `for (int i = 0; i < maxComp; ++i)` is the fold over
`List.range maxComp`, each iteration assigning `dst[i]`. -/
def mergePixel [CMath K] (f : MergingFunctionEnum) (nComponents : Nat) (maxValue : Int)
    (doAlphaMasking : Bool) (A B : Nat → K) (dst : Nat → K) : Nat → K :=
  let doAlphaMasking := doAlphaMasking && isMaskable f
  let a := A 3
  let b := B 3
  let maxComp := nComponents
  let (maxComp, dst) :=
    if doAlphaMasking && nComponents == 4 then
      (3, Function.update dst 3 (a + b - a * b / (maxValue : K)))
    else
      (maxComp, dst)
  (List.range maxComp).foldl
    (fun dst i => Function.update dst i (mergePixelSwitch f maxValue (A i) (B i) a b)) dst

end Functors

/-! ### The divisions of the unguarded functors

In a field `x / 0` is a value, so the functors above cannot tell whether the code
divides by zero.  The functors that divide by something other than `maxValue` without
a test in front are given here a second time with each such division checked: the
result is `none` when a denominator is zero. -/

section CheckedFunctors

variable {K : Type} [LinearOrderedField K]

/-- A division `x / y` of the source with its denominator checked. -/
def checkedDiv (x y : K) : Option K :=
  if y = 0 then none else some (x / y)

/-- The function `geometricFunctor`, its division by `A + B` checked. -/
def geometricFunctorChecked (A B : K) : Option K :=
  checkedDiv (2 * A * B) (A + B)

/-- The function `conjointOverFunctor`, its division by `alphaB` checked. -/
def conjointOverFunctorChecked (maxValue : Int) (A B alphaA alphaB : K) : Option K :=
  if alphaA > alphaB then
    some A
  else
    (checkedDiv (B * ((maxValue : K) - alphaA)) alphaB).map (fun q => A + q)

/-- The function `disjointOverFunctor`, its division by `alphaB` checked. -/
def disjointOverFunctorChecked (maxValue : Int) (A B alphaA alphaB : K) : Option K :=
  if alphaA + alphaB < (maxValue : K) then
    some (A + B)
  else
    (checkedDiv (B * ((maxValue : K) - alphaA)) alphaB).map (fun q => A + q)

end CheckedFunctors

/-! ### Reference formulas of soft-light

The three expressions of the soft-light formula of the SVG compositing specification
of March 2009, in the normalised values `An = A / M`, `Bn = B / M`, as the
specification of this library writes them. -/

section SoftLightReference

variable {K : Type} [Field K]

/-- The soft-light expression for `2 An ≤ 1`. -/
def softLightDark (M An Bn : K) : K :=
  M * (Bn - (1 - 2 * An) * Bn * (1 - Bn))

/-- The soft-light expression for `2 An > 1` and `4 Bn ≤ 1`. -/
def softLightPoly (M An Bn : K) : K :=
  M * (Bn + (2 * An - 1) * (4 * Bn * (4 * Bn + 1) * (Bn - 1) + 7 * Bn))

/-- The soft-light expression for `2 An > 1` and `4 Bn > 1`. -/
def softLightSqrt [CMath K] (M An Bn : K) : K :=
  M * (Bn + (2 * An - 1) * (CMath.sqrt Bn - Bn))

end SoftLightReference

/-! ### Integer pixel types

The template `multiplyFunctor` instantiated at an unsigned integer `PIX` of `bits` bits
(8 or 16).  The operands of an arithmetic operator are promoted to `int`, whose values
are integers wrapped to 32 bits.  The only `double` values are quotients of two integers that are
at once converted to an integer type, which truncates toward zero: such a quotient is
an integer or at least `1 / maxValue` away from one, so the rounding of the division
does not change its truncation, and the two steps together are `Int.tdiv`.  A value
stored in `PIX` is reduced modulo `2 ^ bits`. -/

section IntegerPixels

/-- The value of an `int` expression of exact value `x`: wrap-around to 32 bits, two's
complement. -/
def wrapInt32 (x : Int) : Int :=
  (x + 2147483648) % 4294967296 - 2147483648

/-- The quotient `(double)x / (double)y` of two integers converted to an integer type:
the exact quotient truncated toward zero. -/
def truncDiv (x y : Int) : Int :=
  Int.tdiv x y

/-- The value stored in an unsigned `PIX` of `bits` bits for the integer `x`. -/
def toPIX (bits : Nat) (x : Int) : Int :=
  x % 2 ^ bits

/-- The function `multiplyFunctor<PIX, maxValue>` at an unsigned integer `PIX`:
`A * B` is a product of `int`, converted to `double` for the division by
`(double)maxValue`, and the quotient is converted to `PIX`. -/
def multiplyFunctorUInt (bits : Nat) (maxValue : Int) (A B : Int) : Int :=
  toPIX bits (truncDiv (wrapInt32 (A * B)) maxValue)

end IntegerPixels

/-! ### Rectangles -/

section Rectangles

/-- Modelled from the spec: the structs `OfxRectI` and `OfxRectD` of the OFX API, which
are declared outside these sources: an axis-aligned rectangle `x1, y1, x2, y2`, with
integer or real bounds. -/
structure OfxRect (α : Type) where
  x1 : α
  y1 : α
  x2 : α
  y2 : α
deriving DecidableEq

variable {α : Type} [LinearOrder α]

/-- The function `rectIsEmpty`. -/
def rectIsEmpty (r : OfxRect α) : Bool :=
  decide (r.x2 ≤ r.x1) || decide (r.y2 ≤ r.y1)

/-- The function `rectIntersection`.  The pointer `intersection` is `none` when null and
holds the rect it points to otherwise; the result is the returned `bool` and the rect
behind the pointer after the call. -/
def rectIntersection [Zero α] (r1 r2 : OfxRect α) (intersection : Option (OfxRect α)) :
    Bool × Option (OfxRect α) :=
  if rectIsEmpty r1 || rectIsEmpty r2 then
    (false, intersection.map (fun i => { i with x1 := 0, x2 := 0, y1 := 0, y2 := 0 }))
  else if decide (r1.x1 > r2.x2) || decide (r2.x1 > r1.x2) || decide (r1.y1 > r2.y2)
      || decide (r2.y1 > r1.y2) then
    (false, intersection.map (fun i => { i with x1 := 0, x2 := 0, y1 := 0, y2 := 0 }))
  else
    (true, intersection.map (fun i =>
      let i := { i with x1 := max r1.x1 r2.x1 }
      let i := { i with x2 := max i.x1 (min r1.x2 r2.x2) }
      let i := { i with y1 := max r1.y1 r2.y1 }
      let i := { i with y2 := max i.y1 (min r1.y2 r2.y2) }
      i))

/-- The function `rectBoundingBox`: the four fields of `*bbox` are assigned in the
order of the source, the upper bounds from the lower bounds just written. -/
def rectBoundingBox (a b : OfxRect α) (bbox : OfxRect α) : OfxRect α :=
  let bbox := { bbox with x1 := min a.x1 b.x1 }
  let bbox := { bbox with x2 := max bbox.x1 (max a.x2 b.x2) }
  let bbox := { bbox with y1 := min a.y1 b.y1 }
  let bbox := { bbox with y2 := max bbox.y1 (max a.y2 b.y2) }
  bbox

/-- Modelled from the spec: the macro `kOfxFlagInfiniteMax` of the OFX API, the reserved
bound of an unbounded extent, declared outside these sources as `INT_MAX`. -/
def kOfxFlagInfiniteMax : Int := 2147483647

/-- Modelled from the spec: the macro `kOfxFlagInfiniteMin` of the OFX API, the reserved
bound of an unbounded extent, declared outside these sources as `INT_MIN`. -/
def kOfxFlagInfiniteMin : Int := -2147483648

/-- The function `downscalePowerOfTwoSmallestEnclosing`, on 32-bit `int`: `1 << thisLevel`
is `2 ^ thisLevel` wrapped to 32 bits, `x >> thisLevel` is the arithmetic shift, and the
sum `r.x2 + pot_minus1` wraps.  (Shifts by 32 bits or more are undefined in C++; here
they are the exact shift.)  The rect `ret` is returned after its four fields are
assigned. -/
def downscalePowerOfTwoSmallestEnclosing (r : OfxRect Int) (thisLevel : Nat) : OfxRect Int :=
  if thisLevel = 0 then
    r
  else
    let pot : Int := wrapInt32 (2 ^ thisLevel)
    let pot_minus1 : Int := wrapInt32 (pot - 1)
    let x1 := if r.x1 ≤ kOfxFlagInfiniteMin then kOfxFlagInfiniteMin else r.x1 >>> thisLevel
    let x2 := if r.x2 ≥ kOfxFlagInfiniteMax then kOfxFlagInfiniteMax
      else wrapInt32 (r.x2 + pot_minus1) >>> thisLevel
    let y1 := if r.y1 ≤ kOfxFlagInfiniteMin then kOfxFlagInfiniteMin else r.y1 >>> thisLevel
    let y2 := if r.y2 ≥ kOfxFlagInfiniteMax then kOfxFlagInfiniteMax
      else wrapInt32 (r.y2 + pot_minus1) >>> thisLevel
    OfxRect.mk x1 y1 x2 y2

/-- The four `assert` statements of `downscalePowerOfTwoSmallestEnclosing`, each on the
path that executes it: `true` when none of them fails.  The products `ret.x1 * pot` are
`int` products. -/
def downscaleAssertions (r : OfxRect Int) (thisLevel : Nat) : Bool :=
  if thisLevel = 0 then
    true
  else
    let pot : Int := wrapInt32 (2 ^ thisLevel)
    let ret := downscalePowerOfTwoSmallestEnclosing r thisLevel
    (decide (r.x1 ≤ kOfxFlagInfiniteMin) || decide (wrapInt32 (ret.x1 * pot) ≤ r.x1)) &&
    (decide (r.x2 ≥ kOfxFlagInfiniteMax) || decide (wrapInt32 (ret.x2 * pot) ≥ r.x2)) &&
    (decide (r.y1 ≤ kOfxFlagInfiniteMin) || decide (wrapInt32 (ret.y1 * pot) ≤ r.y1)) &&
    (decide (r.y2 ≥ kOfxFlagInfiniteMax) || decide (wrapInt32 (ret.y2 * pot) ≥ r.y2))

end Rectangles

/-! ### Mipmap levels -/

section Mipmap

/-- The function `std::log` of `<cmath>`. -/
class CMathLog (K : Type) where
  /-- The library function `std::log`. -/
  log : K → K

/-- Over the real numbers `std::log` is the natural logarithm. -/
noncomputable instance realCMathLog : CMathLog ℝ where
  log := Real.log

/-- The value this header gives the macro `M_LN2` when `<cmath>` has not defined it. -/
def M_LN2_header {K : Type} [Field K] : K := 0.693147180559945309417232121458176568

/-- The function `scaleFromMipmapLevel`: `1 << level` is an `int`. -/
def scaleFromMipmapLevel {K : Type} [Field K] (level : Nat) : K :=
  1 / ((wrapInt32 (2 ^ level) : Int) : K)

/-- The function `mipmapLevelFromScale`, the value of `retval`.  The header defines the
macro `M_LN2` only under `#ifndef M_LN2`: its value, the constant `ln 2` of the
platform, is the parameter `M_LN2`. -/
def mipmapLevelFromScale {K : Type} [LinearOrderedField K] [FloorRing K] [CMathLog K]
    (M_LN2 : K) (s : K) : Int :=
  -⌊CMathLog.log s / M_LN2 + 0.5⌋

/-- The rounding of the specification, to the nearest integer with halves away from
zero. -/
def roundHalfAwayFromZero {K : Type} [LinearOrderedField K] [FloorRing K] (x : K) : Int :=
  if 0 ≤ x then ⌊x + 1 / 2⌋ else ⌈x - 1 / 2⌉

end Mipmap

/-! ### The divisions of the guarded functors -/

section GuardedFunctors

variable {K : Type} [LinearOrderedField K]

/-- The function `divideFunctor`, its division by `B` checked. -/
def divideFunctorChecked (A B : K) : Option K :=
  if B ≤ 0 then some 0 else checkedDiv A B

/-- The function `colorDodgeFunctor`, its division by `maxValue - A` checked. -/
def colorDodgeFunctorChecked (maxValue : Int) (A B : K) : Option K :=
  if A ≥ (maxValue : K) then
    some A
  else
    (checkedDiv B ((maxValue : K) - A)).map (fun q => maxValue * min 1 q)

/-- The function `colorBurnFunctor`, its division by `A` checked. -/
def colorBurnFunctorChecked (maxValue : Int) (A B : K) : Option K :=
  if A ≤ 0 then
    some A
  else
    (checkedDiv ((maxValue : K) - B) A).map (fun q => maxValue * (1 - min 1 q))

end GuardedFunctors

end MergeImages2D

/-! ## Theorems: ofxsMatrix2D.h -/

section Matrix2DTheorems

variable {K : Type}

/-- Two `Matrix3x3` values are equal when their nine fields are. -/
theorem Matrix3x3.ext_fields (m n : Matrix3x3 K) (ha : m.a = n.a) (hb : m.b = n.b)
    (hc : m.c = n.c) (hd : m.d = n.d) (he : m.e = n.e) (hf : m.f = n.f) (hg : m.g = n.g)
    (hh : m.h = n.h) (hi : m.i = n.i) : m = n := by
  cases m; cases n; simp_all

/-- The fields of a product, as `operator*` computes them. -/
theorem Matrix3x3.mul_def [Add K] [Mul K] (m1 m2 : Matrix3x3 K) :
    m1 * m2 = Matrix3x3.mk (m1.a * m2.a + m1.b * m2.d + m1.c * m2.g)
               (m1.a * m2.b + m1.b * m2.e + m1.c * m2.h)
               (m1.a * m2.c + m1.b * m2.f + m1.c * m2.i)
               (m1.d * m2.a + m1.e * m2.d + m1.f * m2.g)
               (m1.d * m2.b + m1.e * m2.e + m1.f * m2.h)
               (m1.d * m2.c + m1.e * m2.f + m1.f * m2.i)
               (m1.g * m2.a + m1.h * m2.d + m1.i * m2.g)
               (m1.g * m2.b + m1.h * m2.e + m1.i * m2.h)
               (m1.g * m2.c + m1.h * m2.f + m1.i * m2.i) := rfl

/-- The value of a matrix applied to a point, as `operator*` computes it. -/
theorem Matrix3x3.mulPoint_def [Zero K] [Add K] [Mul K] (m : Matrix3x3 K) (p : Point3D K) :
    m * p = Point3D.mk (m.a * p.x + m.b * p.y + m.c * p.z)
              (m.d * p.x + m.e * p.y + m.f * p.z)
              (m.g * p.x + m.h * p.y + m.i * p.z) := rfl

/-- C1: for every matrix `M` with `ofxsMatDeterminant M ≠ 0`, over any field (exact
arithmetic), `M * ofxsMatInverse M` is the identity matrix, and so is
`ofxsMatInverse M * M`. -/
theorem ofxsMatInverse_mul_cancel [Field K] (M : Matrix3x3 K)
    (hdet : ofxsMatDeterminant M ≠ 0) :
    M * ofxsMatInverse M = Matrix3x3.mk 1 0 0 0 1 0 0 0 1 ∧
    ofxsMatInverse M * M = Matrix3x3.mk 1 0 0 0 1 0 0 0 1 := by
  have h : M.a * (M.e * M.i - M.h * M.f) - M.b * (M.d * M.i - M.g * M.f)
      + M.c * (M.d * M.h - M.g * M.e) ≠ 0 := hdet
  constructor
  · apply Matrix3x3.ext_fields <;>
      simp only [Matrix3x3.mul_def, ofxsMatInverse, ofxsMatScaleAdjoint, ofxsMatDeterminant] <;>
      field_simp <;> ring
  · apply Matrix3x3.ext_fields <;>
      simp only [Matrix3x3.mul_def, ofxsMatInverse, ofxsMatScaleAdjoint, ofxsMatDeterminant] <;>
      field_simp <;> ring

/-- Witness of C1: the matrix `2 0 1 / 0 3 0 / 1 0 1`, of determinant `3`. -/
theorem ofxsMatInverse_mul_cancel_witness :
    ofxsMatDeterminant (Matrix3x3.mk (2 : ℚ) 0 1 0 3 0 1 0 1) ≠ 0 ∧
    Matrix3x3.mk (2 : ℚ) 0 1 0 3 0 1 0 1 * ofxsMatInverse (Matrix3x3.mk (2 : ℚ) 0 1 0 3 0 1 0 1)
      = Matrix3x3.mk 1 0 0 0 1 0 0 0 1 ∧
    ofxsMatInverse (Matrix3x3.mk (2 : ℚ) 0 1 0 3 0 1 0 1) * Matrix3x3.mk (2 : ℚ) 0 1 0 3 0 1 0 1
      = Matrix3x3.mk 1 0 0 0 1 0 0 0 1 :=
  ⟨by norm_num [ofxsMatDeterminant],
    ofxsMatInverse_mul_cancel (Matrix3x3.mk (2 : ℚ) 0 1 0 3 0 1 0 1)
      (by norm_num [ofxsMatDeterminant])⟩

/-- The product `operator*` is associative over a commutative ring. -/
theorem Matrix3x3.mul_assoc_fields [CommRing K] (m n p : Matrix3x3 K) :
    m * n * p = m * (n * p) := by
  apply Matrix3x3.ext_fields <;> simp only [Matrix3x3.mul_def] <;> ring

/-- The matrix `1 0 0 / 0 1 0 / 0 0 1` is a left unit of `operator*`. -/
theorem Matrix3x3.identity_mul [CommRing K] (m : Matrix3x3 K) :
    Matrix3x3.mk 1 0 0 0 1 0 0 0 1 * m = m := by
  apply Matrix3x3.ext_fields <;> simp only [Matrix3x3.mul_def] <;> ring

/-- When `m * n` is the identity, `m` cancels `n` in front of any product. -/
theorem Matrix3x3.mul_cancel_left [CommRing K] (m n p : Matrix3x3 K)
    (h : m * n = Matrix3x3.mk 1 0 0 0 1 0 0 0 1) : m * (n * p) = p := by
  rw [← Matrix3x3.mul_assoc_fields, h, Matrix3x3.identity_mul]

/-- A translation is undone by the opposite translation. -/
theorem ofxsMatTranslation_neg_mul [Field K] (x y : K) :
    ofxsMatTranslation (-x) (-y) * ofxsMatTranslation x y = Matrix3x3.mk 1 0 0 0 1 0 0 0 1 := by
  apply Matrix3x3.ext_fields <;> simp only [Matrix3x3.mul_def, ofxsMatTranslation] <;> ring

/-- A translation undoes the opposite translation. -/
theorem ofxsMatTranslation_mul_neg [Field K] (x y : K) :
    ofxsMatTranslation x y * ofxsMatTranslation (-x) (-y) = Matrix3x3.mk 1 0 0 0 1 0 0 0 1 := by
  apply Matrix3x3.ext_fields <;> simp only [Matrix3x3.mul_def, ofxsMatTranslation] <;> ring

/-- A scale by nonzero factors is undone by the scale by their reciprocals. -/
theorem ofxsMatScale_inv_mul [Field K] (x y : K) (hx : x ≠ 0) (hy : y ≠ 0) :
    ofxsMatScale (1 / x) (1 / y) * ofxsMatScale x y = Matrix3x3.mk 1 0 0 0 1 0 0 0 1 := by
  apply Matrix3x3.ext_fields <;> simp only [Matrix3x3.mul_def, ofxsMatScale] <;> field_simp

/-- A skew is undone by the skew of the opposite amounts in the opposite order. -/
theorem ofxsMatSkewXY_neg_mul [Field K] (skewX skewY : K) (skewOrderYX : Bool) :
    ofxsMatSkewXY (-skewX) (-skewY) (!skewOrderYX) * ofxsMatSkewXY skewX skewY skewOrderYX
      = Matrix3x3.mk 1 0 0 0 1 0 0 0 1 := by
  cases skewOrderYX <;> apply Matrix3x3.ext_fields <;>
    simp [Matrix3x3.mul_def, ofxsMatSkewXY] <;> ring

/-- Over the reals, the rotation by `rads` is undone by the rotation by `-rads`. -/
theorem ofxsMatRotation_mul_neg (rads : ℝ) :
    ofxsMatRotation rads * ofxsMatRotation (-rads) = Matrix3x3.mk 1 0 0 0 1 0 0 0 1 := by
  have h := Real.cos_sq_add_sin_sq rads
  apply Matrix3x3.ext_fields <;>
    simp only [Matrix3x3.mul_def, ofxsMatRotation, CMath.cos, CMath.sin, Real.cos_neg,
      Real.sin_neg] <;> first | ring1 | linear_combination h

/-- C2: the round-trip law.  For all real translate, skew, rotation and center, both
skew orders and all nonzero `scaleX`, `scaleY`, the product
`ofxsMatInverseTransformCanonical p * ofxsMatTransformCanonical p` with the same
parameters `p` is the identity matrix. -/
theorem ofxsMatInverseTransformCanonical_mul_ofxsMatTransformCanonical
    (translateX translateY scaleX scaleY skewX skewY : ℝ) (skewOrderYX : Bool)
    (rads centerX centerY : ℝ) (hx : scaleX ≠ 0) (hy : scaleY ≠ 0) :
    ofxsMatInverseTransformCanonical translateX translateY scaleX scaleY skewX skewY
        skewOrderYX rads centerX centerY *
      ofxsMatTransformCanonical translateX translateY scaleX scaleY skewX skewY
        skewOrderYX rads centerX centerY
      = Matrix3x3.mk 1 0 0 0 1 0 0 0 1 := by
  simp only [ofxsMatInverseTransformCanonical, ofxsMatTransformCanonical,
    Matrix3x3.mul_assoc_fields]
  rw [Matrix3x3.mul_cancel_left _ _ _ (ofxsMatTranslation_neg_mul centerX centerY),
    Matrix3x3.mul_cancel_left _ _ _ (ofxsMatTranslation_neg_mul translateX translateY),
    Matrix3x3.mul_cancel_left _ _ _ (ofxsMatRotation_mul_neg rads),
    Matrix3x3.mul_cancel_left _ _ _ (ofxsMatSkewXY_neg_mul skewX skewY skewOrderYX),
    Matrix3x3.mul_cancel_left _ _ _ (ofxsMatScale_inv_mul scaleX scaleY hx hy),
    ofxsMatTranslation_mul_neg]

/-- Witness of C2: scale `(2, 3)`, translate `(10, 0)`, skew `(1, 2)`, rotation by `1`
radian about the center `(4, 5)`. -/
theorem ofxsMatInverseTransformCanonical_mul_ofxsMatTransformCanonical_witness :
    (2 : ℝ) ≠ 0 ∧ (3 : ℝ) ≠ 0 ∧
    ofxsMatInverseTransformCanonical (10 : ℝ) 0 2 3 1 2 false 1 4 5 *
      ofxsMatTransformCanonical (10 : ℝ) 0 2 3 1 2 false 1 4 5
      = Matrix3x3.mk 1 0 0 0 1 0 0 0 1 :=
  ⟨by norm_num, by norm_num,
    ofxsMatInverseTransformCanonical_mul_ofxsMatTransformCanonical 10 0 2 3 1 2 false 1 4 5
      (by norm_num) (by norm_num)⟩

/-- C3: for all `pixelaspectratio > 0`, `renderscaleX > 0`, `renderscaleY > 0` and both
values of `fielded`, `ofxsMatPixelToCanonical * ofxsMatCanonicalToPixel` with the same
parameters is the identity matrix, and so is the product in the other order. -/
theorem ofxsMatPixelToCanonical_mul_ofxsMatCanonicalToPixel [LinearOrderedField K]
    (pixelaspectratio renderscaleX renderscaleY : K) (fielded : Bool)
    (hpar : 0 < pixelaspectratio) (hx : 0 < renderscaleX) (hy : 0 < renderscaleY) :
    ofxsMatPixelToCanonical pixelaspectratio renderscaleX renderscaleY fielded *
        ofxsMatCanonicalToPixel pixelaspectratio renderscaleX renderscaleY fielded
      = Matrix3x3.mk 1 0 0 0 1 0 0 0 1 ∧
    ofxsMatCanonicalToPixel pixelaspectratio renderscaleX renderscaleY fielded *
        ofxsMatPixelToCanonical pixelaspectratio renderscaleX renderscaleY fielded
      = Matrix3x3.mk 1 0 0 0 1 0 0 0 1 := by
  have h1 : pixelaspectratio ≠ 0 := ne_of_gt hpar
  have h2 : renderscaleX ≠ 0 := ne_of_gt hx
  have h3 : renderscaleY ≠ 0 := ne_of_gt hy
  have h5 : (0.5 : K) ≠ 0 := by norm_num
  constructor <;> cases fielded <;> apply Matrix3x3.ext_fields <;>
    simp only [Matrix3x3.mul_def, ofxsMatPixelToCanonical, ofxsMatCanonicalToPixel,
      ofxsMatScale, if_true, if_false, Bool.false_eq_true] <;>
    norm_num <;> field_simp

/-- Witness of C3: the PAL pixel aspect ratio `16/15` at half resolution, fielded. -/
theorem ofxsMatPixelToCanonical_mul_ofxsMatCanonicalToPixel_witness :
    (0 : ℚ) < 16 / 15 ∧ (0 : ℚ) < 1 / 2 ∧
    (ofxsMatPixelToCanonical (16 / 15 : ℚ) (1 / 2) (1 / 2) true *
        ofxsMatCanonicalToPixel (16 / 15 : ℚ) (1 / 2) (1 / 2) true
      = Matrix3x3.mk 1 0 0 0 1 0 0 0 1 ∧
    ofxsMatCanonicalToPixel (16 / 15 : ℚ) (1 / 2) (1 / 2) true *
        ofxsMatPixelToCanonical (16 / 15 : ℚ) (1 / 2) (1 / 2) true
      = Matrix3x3.mk 1 0 0 0 1 0 0 0 1) :=
  ⟨by norm_num, by norm_num,
    ofxsMatPixelToCanonical_mul_ofxsMatCanonicalToPixel (16 / 15) (1 / 2) (1 / 2) true
      (by norm_num) (by norm_num) (by norm_num)⟩

/-- C4, evaluated on the code: the constructor `Matrix3x3()` initialises `d` to `1` and
leaves `e` and `i` at `0`, so the default-constructed matrix is
`1 0 0 / 1 0 0 / 0 0 0`, it is not the identity matrix and `isIdentity` returns `false`
on it. -/
theorem Matrix3x3_new_not_identity :
    (Matrix3x3.new : Matrix3x3 ℚ) = Matrix3x3.mk 1 0 0 1 0 0 0 0 0 ∧
    (Matrix3x3.new : Matrix3x3 ℚ) ≠ Matrix3x3.mk 1 0 0 0 1 0 0 0 1 ∧
    Matrix3x3.isIdentity (Matrix3x3.new : Matrix3x3 ℚ) = false := by
  refine ⟨rfl, by decide, by decide⟩

/-- C5: with no skew and no rotation, and either skew order,
`ofxsMatTransformCanonical` maps the point `(x, y, 1)` to
`(cx + tx + sx * (x - cx), cy + ty + sy * (y - cy), 1)`: scale about the center, then
translate.  In particular translate `(10, 0)`, scale `(2, 2)`, center `(0, 0)` maps
`(1, 1, 1)` to `(12, 2, 1)`. -/
theorem ofxsMatTransformCanonical_scale_translate :
    (∀ (tx ty sx sy cx cy x y : ℝ) (skewOrderYX : Bool),
      ofxsMatTransformCanonical tx ty sx sy 0 0 skewOrderYX 0 cx cy * Point3D.mk x y 1
        = Point3D.mk (cx + tx + sx * (x - cx)) (cy + ty + sy * (y - cy)) 1) ∧
    ofxsMatTransformCanonical (10 : ℝ) 0 2 2 0 0 false 0 0 0 * Point3D.mk (1 : ℝ) 1 1
      = Point3D.mk 12 2 1 := by
  have key : ∀ (tx ty sx sy cx cy x y : ℝ) (skewOrderYX : Bool),
      ofxsMatTransformCanonical tx ty sx sy 0 0 skewOrderYX 0 cx cy * Point3D.mk x y 1
        = Point3D.mk (cx + tx + sx * (x - cx)) (cy + ty + sy * (y - cy)) 1 := by
    intro tx ty sx sy cx cy x y skewOrderYX
    cases skewOrderYX <;>
      simp only [ofxsMatTransformCanonical, Matrix3x3.mul_def, Matrix3x3.mulPoint_def,
        ofxsMatTranslation, ofxsMatRotation, ofxsMatSkewXY, ofxsMatScale, CMath.cos,
        CMath.sin, neg_zero, Real.cos_zero, Real.sin_zero, Point3D.mk.injEq, if_true,
        if_false, Bool.false_eq_true] <;>
      refine ⟨?_, ?_, ?_⟩ <;> ring
  refine ⟨key, ?_⟩
  rw [key]
  norm_num

/-- C6: `ofxsMatDeterminant M` is the cofactor expansion along the first row,
`a (e i - h f) - b (d i - g f) + c (d h - g e)`, and it is the determinant of the
3x3 matrix with rows `a b c / d e f / g h i`. -/
theorem ofxsMatDeterminant_eq_det [Field K] (M : Matrix3x3 K) :
    ofxsMatDeterminant M
      = M.a * (M.e * M.i - M.h * M.f) - M.b * (M.d * M.i - M.g * M.f)
          + M.c * (M.d * M.h - M.g * M.e) ∧
    ofxsMatDeterminant M = Matrix.det (Matrix3x3.toMatrix M) := by
  refine ⟨rfl, ?_⟩
  rw [Matrix.det_fin_three]
  simp [ofxsMatDeterminant, Matrix3x3.toMatrix]
  ring

/-- C7: `operator*` on `Matrix3x3` is the row-by-column matrix product: entry `(r, c)`
of `m1 * m2` is the sum over `k` of `m1[r][k] * m2[k][c]`, for all nine entries. -/
theorem Matrix3x3_mul_eq_matrix_mul [Field K] (m1 m2 : Matrix3x3 K) :
    (∀ r c : Fin 3, Matrix3x3.toMatrix (m1 * m2) r c
      = ∑ k : Fin 3, Matrix3x3.toMatrix m1 r k * Matrix3x3.toMatrix m2 k c) ∧
    Matrix3x3.toMatrix (m1 * m2) = Matrix3x3.toMatrix m1 * Matrix3x3.toMatrix m2 := by
  have key : ∀ r c : Fin 3, Matrix3x3.toMatrix (m1 * m2) r c
      = ∑ k : Fin 3, Matrix3x3.toMatrix m1 r k * Matrix3x3.toMatrix m2 k c := by
    intro r c
    fin_cases r <;> fin_cases c <;>
      simp [Matrix3x3.toMatrix, Matrix3x3.mul_def, Fin.sum_univ_three]
  refine ⟨key, ?_⟩
  ext r c
  rw [Matrix.mul_apply]
  exact key r c

/-- C26: with no translation, unit scale, no skew and center at the origin,
`ofxsMatTransformCanonical` is the counter-clockwise rotation by `rads`: it maps
`(x, y, 1)` to `(x cos rads - y sin rads, x sin rads + y cos rads, 1)`, for either skew
order; in particular `(1, 0, 1)` goes to `(cos rads, sin rads, 1)`. -/
theorem ofxsMatTransformCanonical_rotation (rads : ℝ) (skewOrderYX : Bool) :
    (∀ x y : ℝ,
      ofxsMatTransformCanonical 0 0 1 1 0 0 skewOrderYX rads 0 0 * Point3D.mk x y 1
        = Point3D.mk (x * Real.cos rads - y * Real.sin rads)
            (x * Real.sin rads + y * Real.cos rads) 1) ∧
    ofxsMatTransformCanonical 0 0 1 1 0 0 skewOrderYX rads 0 0 * Point3D.mk (1 : ℝ) 0 1
      = Point3D.mk (Real.cos rads) (Real.sin rads) 1 := by
  have key : ∀ x y : ℝ,
      ofxsMatTransformCanonical 0 0 1 1 0 0 skewOrderYX rads 0 0 * Point3D.mk x y 1
        = Point3D.mk (x * Real.cos rads - y * Real.sin rads)
            (x * Real.sin rads + y * Real.cos rads) 1 := by
    intro x y
    cases skewOrderYX <;>
      simp only [ofxsMatTransformCanonical, Matrix3x3.mul_def, Matrix3x3.mulPoint_def,
        ofxsMatTranslation, ofxsMatRotation, ofxsMatSkewXY, ofxsMatScale, CMath.cos,
        CMath.sin, Real.cos_neg, Real.sin_neg, Point3D.mk.injEq, if_true, if_false,
        Bool.false_eq_true] <;>
      refine ⟨?_, ?_, ?_⟩ <;> ring
  refine ⟨key, ?_⟩
  rw [key]
  simp

/-- The determinant of a product is the product of the determinants. -/
theorem ofxsMatDeterminant_mul [Field K] (m n : Matrix3x3 K) :
    ofxsMatDeterminant (m * n) = ofxsMatDeterminant m * ofxsMatDeterminant n := by
  simp only [ofxsMatDeterminant, Matrix3x3.mul_def]
  ring

/-- A translation has determinant `1`. -/
theorem ofxsMatDeterminant_translation [Field K] (x y : K) :
    ofxsMatDeterminant (ofxsMatTranslation x y) = 1 := by
  simp [ofxsMatDeterminant, ofxsMatTranslation]

/-- A scale has determinant `x * y`. -/
theorem ofxsMatDeterminant_scale [Field K] (x y : K) :
    ofxsMatDeterminant (ofxsMatScale x y) = x * y := by
  simp [ofxsMatDeterminant, ofxsMatScale]

/-- A skew has determinant `1`, in either order. -/
theorem ofxsMatDeterminant_skew [Field K] (skewX skewY : K) (skewOrderYX : Bool) :
    ofxsMatDeterminant (ofxsMatSkewXY skewX skewY skewOrderYX) = 1 := by
  cases skewOrderYX <;> simp [ofxsMatDeterminant, ofxsMatSkewXY]

/-- Over the reals a rotation has determinant `1`. -/
theorem ofxsMatDeterminant_rotation (rads : ℝ) :
    ofxsMatDeterminant (ofxsMatRotation rads) = 1 := by
  have h := Real.cos_sq_add_sin_sq rads
  simp only [ofxsMatDeterminant, ofxsMatRotation, CMath.cos, CMath.sin]
  linear_combination h

/-- C27: for all real parameters and both skew orders the determinant of
`ofxsMatTransformCanonical` is `scaleX * scaleY`, so the forward transform is
singular exactly when `scaleX = 0` or `scaleY = 0`. -/
theorem ofxsMatDeterminant_ofxsMatTransformCanonical
    (translateX translateY scaleX scaleY skewX skewY : ℝ) (skewOrderYX : Bool)
    (rads centerX centerY : ℝ) :
    ofxsMatDeterminant (ofxsMatTransformCanonical translateX translateY scaleX scaleY
      skewX skewY skewOrderYX rads centerX centerY) = scaleX * scaleY ∧
    (ofxsMatDeterminant (ofxsMatTransformCanonical translateX translateY scaleX scaleY
      skewX skewY skewOrderYX rads centerX centerY) = 0 ↔ scaleX = 0 ∨ scaleY = 0) := by
  have h : ofxsMatDeterminant (ofxsMatTransformCanonical translateX translateY scaleX
      scaleY skewX skewY skewOrderYX rads centerX centerY) = scaleX * scaleY := by
    simp only [ofxsMatTransformCanonical, ofxsMatDeterminant_mul,
      ofxsMatDeterminant_translation, ofxsMatDeterminant_scale, ofxsMatDeterminant_skew,
      ofxsMatDeterminant_rotation]
    ring
  exact ⟨h, by rw [h]; exact mul_eq_zero⟩

end Matrix2DTheorems

/-! ## Theorems: ofxsMerging.h -/

namespace MergeImages2D

/-- A loop that assigns `dst[i] = g i` for `i = 0, ..., n - 1` leaves in `dst` the value
`g j` at each `j < n` and the former contents elsewhere. -/
theorem foldl_update_range {K : Type} (g : Nat → K) (n : Nat) (dst : Nat → K) :
    (List.range n).foldl (fun dst i => Function.update dst i (g i)) dst
      = fun j => if j < n then g j else dst j := by
  induction n with
  | zero => simp
  | succ n ih =>
    rw [List.range_succ, List.foldl_append, ih]
    funext j
    simp only [List.foldl_cons, List.foldl_nil, Function.update_apply]
    by_cases hj : j = n
    · subst hj; simp
    · have : j < n + 1 ↔ j < n := by omega
      simp [hj, this]

section MergingTheorems

variable {K : Type} [LinearOrderedField K] [CMath K]

/-- C8: `isMaskable` returns `false` exactly for the 13 operators over, atop, in, out,
mask, matte, stencil, under, xor, copy, conjoint-over, disjoint-over and screen, and
`true` for each of the other 21 of the 34 operators of `MergingFunctionEnum`. -/
theorem isMaskable_eq_false_iff :
    (∀ op : MergingFunctionEnum, isMaskable op = false ↔
      op ∈ [eMergeOver, eMergeATop, eMergeIn, eMergeOut, eMergeMask, eMergeMatte,
        eMergeStencil, eMergeUnder, eMergeXOR, eMergeCopy, eMergeConjointOver,
        eMergeDisjointOver, eMergeScreen]) ∧
    allMergingFunctions.length = 34 ∧
    allMergingFunctions.Nodup ∧
    (allMergingFunctions.filter (fun op => !isMaskable op)).length = 13 ∧
    allMergingFunctions.filter (fun op => isMaskable op)
      = [eMergeAverage, eMergeColorBurn, eMergeColorDodge, eMergeDifference, eMergeDivide,
         eMergeExclusion, eMergeFreeze, eMergeFrom, eMergeGeometric, eMergeHardLight,
         eMergeHypot, eMergeInterpolated, eMergeLighten, eMergeDarken, eMergeMinus,
         eMergeMultiply, eMergeOverlay, eMergePinLight, eMergePlus, eMergeReflect,
         eMergeSoftLight] ∧
    (allMergingFunctions.filter (fun op => isMaskable op)).length = 21 := by
  refine ⟨?_, by decide, by decide, by decide, by decide, by decide⟩
  intro op
  simp only [isMaskable, eMergeATop, eMergeAverage, eMergeColorBurn, eMergeColorDodge,
    eMergeConjointOver, eMergeCopy, eMergeDifference, eMergeDisjointOver, eMergeDivide,
    eMergeExclusion, eMergeFreeze, eMergeFrom, eMergeGeometric, eMergeHardLight,
    eMergeHypot, eMergeIn, eMergeInterpolated, eMergeMask, eMergeMatte, eMergeLighten,
    eMergeDarken, eMergeMinus, eMergeMultiply, eMergeOut, eMergeOver, eMergeOverlay,
    eMergePinLight, eMergePlus, eMergeReflect, eMergeScreen, eMergeSoftLight,
    eMergeStencil, eMergeUnder, eMergeXOR, List.mem_cons, List.mem_singleton,
    List.not_mem_nil, or_false]
  delta MergingFunctionEnum
  split_ifs with h1 h2
  · constructor
    · intro h; cases h
    · intro h; omega
  · constructor
    · intro _; omega
    · intro _; rfl
  · constructor
    · intro h; cases h
    · intro h; omega

/-- C9: for every operator `f` with `isMaskable f = false`, every channel count and all
pixels `A`, `B`, `mergePixel` with `doAlphaMasking = true` leaves in `dst` exactly what
`mergePixel` with `doAlphaMasking = false` leaves: the masking flag has no effect on a
non-maskable operator. -/
theorem mergePixel_not_maskable (f : MergingFunctionEnum) (hf : isMaskable f = false)
    (nComponents : Nat) (maxValue : Int) (A B dst : Nat → K) :
    mergePixel f nComponents maxValue true A B dst
      = mergePixel f nComponents maxValue false A B dst := by
  simp [mergePixel, hf]

/-- Witness of C9: operator over on two 8-bit RGBA pixels. -/
theorem mergePixel_not_maskable_witness :
    isMaskable eMergeOver = false ∧
    mergePixel eMergeOver 4 255 true (fun i => ([100, 0, 0, 200] : List ℝ).getD i 0)
        (fun i => ([0, 100, 0, 100] : List ℝ).getD i 0) (fun _ => 0)
      = mergePixel eMergeOver 4 255 false (fun i => ([100, 0, 0, 200] : List ℝ).getD i 0)
        (fun i => ([0, 100, 0, 100] : List ℝ).getD i 0) (fun _ => 0) :=
  ⟨by decide, mergePixel_not_maskable eMergeOver (by decide) 4 255 _ _ _⟩

/-- The contents of `dst` after `mergePixel`, channel by channel. -/
theorem mergePixel_apply (f : MergingFunctionEnum) (nComponents : Nat) (maxValue : Int)
    (doAlphaMasking : Bool) (A B dst : Nat → K) (i : Nat) :
    mergePixel f nComponents maxValue doAlphaMasking A B dst i
      = if doAlphaMasking = true ∧ isMaskable f = true ∧ nComponents = 4 then
          if i < 3 then mergePixelSwitch f maxValue (A i) (B i) (A 3) (B 3)
          else if i = 3 then A 3 + B 3 - A 3 * B 3 / (maxValue : K)
          else dst i
        else
          if i < nComponents then mergePixelSwitch f maxValue (A i) (B i) (A 3) (B 3)
          else dst i := by
  by_cases h : doAlphaMasking = true ∧ isMaskable f = true ∧ nComponents = 4
  · obtain ⟨h1, h2, h3⟩ := h
    simp [mergePixel, h1, h2, h3, foldl_update_range, Function.update_apply]
  · rw [if_neg h]
    have hc : ((doAlphaMasking && isMaskable f) && nComponents == 4) = false := by
      cases hd : doAlphaMasking <;> cases hm : isMaskable f <;>
        by_cases hn : nComponents = 4 <;> simp_all
    simp [mergePixel, hc, foldl_update_range]

/-- The `switch` of `mergePixel` at `eMergeOver` calls `overFunctor`. -/
theorem mergePixelSwitch_over (maxValue : Int) (Ai Bi a b : K) :
    mergePixelSwitch eMergeOver maxValue Ai Bi a b = overFunctor maxValue Ai Bi a b := by
  simp [mergePixelSwitch, eMergeATop, eMergeAverage, eMergeColorBurn, eMergeColorDodge,
    eMergeConjointOver, eMergeCopy, eMergeDifference, eMergeDisjointOver, eMergeDivide,
    eMergeExclusion, eMergeFreeze, eMergeFrom, eMergeGeometric, eMergeHardLight,
    eMergeHypot, eMergeIn, eMergeInterpolated, eMergeMask, eMergeMatte, eMergeLighten,
    eMergeDarken, eMergeMinus, eMergeMultiply, eMergeOut, eMergeOver, eMergeOverlay,
    eMergePinLight, eMergePlus, eMergeReflect, eMergeScreen, eMergeSoftLight,
    eMergeStencil, eMergeUnder, eMergeXOR]

/-- The `switch` of `mergePixel` at `eMergePlus` calls `plusFunctor`. -/
theorem mergePixelSwitch_plus (maxValue : Int) (Ai Bi a b : K) :
    mergePixelSwitch eMergePlus maxValue Ai Bi a b = plusFunctor Ai Bi := by
  simp [mergePixelSwitch, eMergeATop, eMergeAverage, eMergeColorBurn, eMergeColorDodge,
    eMergeConjointOver, eMergeCopy, eMergeDifference, eMergeDisjointOver, eMergeDivide,
    eMergeExclusion, eMergeFreeze, eMergeFrom, eMergeGeometric, eMergeHardLight,
    eMergeHypot, eMergeIn, eMergeInterpolated, eMergeMask, eMergeMatte, eMergeLighten,
    eMergeDarken, eMergeMinus, eMergeMultiply, eMergeOut, eMergeOver, eMergeOverlay,
    eMergePinLight, eMergePlus, eMergeReflect, eMergeScreen, eMergeSoftLight,
    eMergeStencil, eMergeUnder, eMergeXOR]

/-- The `switch` of `mergePixel` at `eMergeMultiply` calls `multiplyFunctor`. -/
theorem mergePixelSwitch_multiply (maxValue : Int) (Ai Bi a b : K) :
    mergePixelSwitch eMergeMultiply maxValue Ai Bi a b = multiplyFunctor maxValue Ai Bi := by
  simp [mergePixelSwitch, eMergeATop, eMergeAverage, eMergeColorBurn, eMergeColorDodge,
    eMergeConjointOver, eMergeCopy, eMergeDifference, eMergeDisjointOver, eMergeDivide,
    eMergeExclusion, eMergeFreeze, eMergeFrom, eMergeGeometric, eMergeHardLight,
    eMergeHypot, eMergeIn, eMergeInterpolated, eMergeMask, eMergeMatte, eMergeLighten,
    eMergeDarken, eMergeMinus, eMergeMultiply, eMergeOut, eMergeOver, eMergeOverlay,
    eMergePinLight, eMergePlus, eMergeReflect, eMergeScreen, eMergeSoftLight,
    eMergeStencil, eMergeUnder, eMergeXOR]

/-- The values of the enum that are none of the 34 enumerators are the integers below
`0` and above `33`. -/
theorem not_mem_allMergingFunctions (f : MergingFunctionEnum) :
    f ∉ allMergingFunctions ↔ (f < 0 ∨ 33 < f) := by
  simp only [allMergingFunctions, eMergeATop, eMergeAverage, eMergeColorBurn, eMergeColorDodge,
    eMergeConjointOver, eMergeCopy, eMergeDifference, eMergeDisjointOver, eMergeDivide,
    eMergeExclusion, eMergeFreeze, eMergeFrom, eMergeGeometric, eMergeHardLight,
    eMergeHypot, eMergeIn, eMergeInterpolated, eMergeMask, eMergeMatte, eMergeLighten,
    eMergeDarken, eMergeMinus, eMergeMultiply, eMergeOut, eMergeOver, eMergeOverlay,
    eMergePinLight, eMergePlus, eMergeReflect, eMergeScreen, eMergeSoftLight,
    eMergeStencil, eMergeUnder, eMergeXOR, List.mem_cons, List.mem_singleton,
    List.not_mem_nil, or_false]
  delta MergingFunctionEnum
  omega

/-- The `switch` of `mergePixel` takes its `default` label at a value that is none of
the enumerators. -/
theorem mergePixelSwitch_default (f : MergingFunctionEnum) (hf : f ∉ allMergingFunctions)
    (maxValue : Int) (Ai Bi a b : K) :
    mergePixelSwitch f maxValue Ai Bi a b = 0 := by
  rw [not_mem_allMergingFunctions] at hf
  simp only [mergePixelSwitch, eMergeATop, eMergeAverage, eMergeColorBurn, eMergeColorDodge,
    eMergeConjointOver, eMergeCopy, eMergeDifference, eMergeDisjointOver, eMergeDivide,
    eMergeExclusion, eMergeFreeze, eMergeFrom, eMergeGeometric, eMergeHardLight,
    eMergeHypot, eMergeIn, eMergeInterpolated, eMergeMask, eMergeMatte, eMergeLighten,
    eMergeDarken, eMergeMinus, eMergeMultiply, eMergeOut, eMergeOver, eMergeOverlay,
    eMergePinLight, eMergePlus, eMergeReflect, eMergeScreen, eMergeSoftLight,
    eMergeStencil, eMergeUnder, eMergeXOR]
  delta MergingFunctionEnum at *
  iterate 34 rw [if_neg (by omega)]

/-- C10: when `doAlphaMasking` is set, `f` is maskable and `nComponents = 4`,
`mergePixel` writes `dst[3] = a + b - a * b / maxValue` with `a = A[3]`, `b = B[3]`,
and `dst[i] = f(A[i], B[i])` for `i = 0, 1, 2` only; in every other case it writes
`dst[i] = f(A[i], B[i])` for every `i < nComponents`, alpha included.  Nothing else
in `dst` changes.  The value `f(A[i], B[i])` is that of the functor of `f`: the `switch`
calls `atopFunctor` for `eMergeATop`, `averageFunctor` for `eMergeAverage`, and so on
for each of the 34 enumerators, and gives `0` for any other value. -/
theorem mergePixel_eq (f : MergingFunctionEnum) (nComponents : Nat) (maxValue : Int)
    (doAlphaMasking : Bool) (A B dst : Nat → K) :
    (mergePixel f nComponents maxValue doAlphaMasking A B dst
      = fun i =>
          if doAlphaMasking = true ∧ isMaskable f = true ∧ nComponents = 4 then
            if i < 3 then mergePixelSwitch f maxValue (A i) (B i) (A 3) (B 3)
            else if i = 3 then A 3 + B 3 - A 3 * B 3 / (maxValue : K)
            else dst i
          else
            if i < nComponents then mergePixelSwitch f maxValue (A i) (B i) (A 3) (B 3)
            else dst i) ∧
    (∀ Ai Bi a b : K,
      mergePixelSwitch eMergeATop maxValue Ai Bi a b = atopFunctor maxValue Ai Bi a b ∧
      mergePixelSwitch eMergeAverage maxValue Ai Bi a b = averageFunctor Ai Bi ∧
      mergePixelSwitch eMergeColorBurn maxValue Ai Bi a b = colorBurnFunctor maxValue Ai Bi ∧
      mergePixelSwitch eMergeColorDodge maxValue Ai Bi a b = colorDodgeFunctor maxValue Ai Bi ∧
      mergePixelSwitch eMergeConjointOver maxValue Ai Bi a b = conjointOverFunctor maxValue Ai Bi a b ∧
      mergePixelSwitch eMergeCopy maxValue Ai Bi a b = copyFunctor Ai Bi ∧
      mergePixelSwitch eMergeDifference maxValue Ai Bi a b = differenceFunctor Ai Bi ∧
      mergePixelSwitch eMergeDisjointOver maxValue Ai Bi a b = disjointOverFunctor maxValue Ai Bi a b ∧
      mergePixelSwitch eMergeDivide maxValue Ai Bi a b = divideFunctor Ai Bi ∧
      mergePixelSwitch eMergeExclusion maxValue Ai Bi a b = exclusionFunctor maxValue Ai Bi ∧
      mergePixelSwitch eMergeFreeze maxValue Ai Bi a b = freezeFunctor maxValue Ai Bi ∧
      mergePixelSwitch eMergeFrom maxValue Ai Bi a b = fromFunctor Ai Bi ∧
      mergePixelSwitch eMergeGeometric maxValue Ai Bi a b = geometricFunctor Ai Bi ∧
      mergePixelSwitch eMergeHardLight maxValue Ai Bi a b = hardLightFunctor maxValue Ai Bi ∧
      mergePixelSwitch eMergeHypot maxValue Ai Bi a b = hypotFunctor Ai Bi ∧
      mergePixelSwitch eMergeIn maxValue Ai Bi a b = inFunctor maxValue Ai Bi a b ∧
      mergePixelSwitch eMergeInterpolated maxValue Ai Bi a b = interpolatedFunctor maxValue Ai Bi ∧
      mergePixelSwitch eMergeMask maxValue Ai Bi a b = maskFunctor maxValue Ai Bi a b ∧
      mergePixelSwitch eMergeMatte maxValue Ai Bi a b = matteFunctor maxValue Ai Bi a b ∧
      mergePixelSwitch eMergeLighten maxValue Ai Bi a b = lightenFunctor Ai Bi ∧
      mergePixelSwitch eMergeDarken maxValue Ai Bi a b = darkenFunctor Ai Bi ∧
      mergePixelSwitch eMergeMinus maxValue Ai Bi a b = minusFunctor Ai Bi ∧
      mergePixelSwitch eMergeMultiply maxValue Ai Bi a b = multiplyFunctor maxValue Ai Bi ∧
      mergePixelSwitch eMergeOut maxValue Ai Bi a b = outFunctor maxValue Ai Bi a b ∧
      mergePixelSwitch eMergeOver maxValue Ai Bi a b = overFunctor maxValue Ai Bi a b ∧
      mergePixelSwitch eMergeOverlay maxValue Ai Bi a b = overlayFunctor maxValue Ai Bi ∧
      mergePixelSwitch eMergePinLight maxValue Ai Bi a b = pinLightFunctor maxValue Ai Bi ∧
      mergePixelSwitch eMergePlus maxValue Ai Bi a b = plusFunctor Ai Bi ∧
      mergePixelSwitch eMergeReflect maxValue Ai Bi a b = reflectFunctor maxValue Ai Bi ∧
      mergePixelSwitch eMergeScreen maxValue Ai Bi a b = screenFunctor maxValue Ai Bi ∧
      mergePixelSwitch eMergeSoftLight maxValue Ai Bi a b = softLightFunctor maxValue Ai Bi ∧
      mergePixelSwitch eMergeStencil maxValue Ai Bi a b = stencilFunctor maxValue Ai Bi a b ∧
      mergePixelSwitch eMergeUnder maxValue Ai Bi a b = underFunctor maxValue Ai Bi a b ∧
      mergePixelSwitch eMergeXOR maxValue Ai Bi a b = xorFunctor maxValue Ai Bi a b ∧
      (f ∉ allMergingFunctions → mergePixelSwitch f maxValue Ai Bi a b = 0)) := by
  refine ⟨?_, fun Ai Bi a b => ?_⟩
  · funext i
    exact mergePixel_apply f nComponents maxValue doAlphaMasking A B dst i
  · exact ⟨rfl, rfl, rfl, rfl, rfl, rfl, rfl, rfl, rfl, rfl, rfl, rfl, rfl, rfl, rfl, rfl, rfl,
      rfl, rfl, rfl, rfl, rfl, rfl, rfl, rfl, rfl, rfl, rfl, rfl, rfl, rfl, rfl, rfl, rfl,
      fun hf => mergePixelSwitch_default f hf maxValue Ai Bi a b⟩

/-- The function `isMaskable` returns `true` at a value that is none of the
enumerators. -/
theorem isMaskable_default (f : MergingFunctionEnum) (hf : f ∉ allMergingFunctions) :
    isMaskable f = true := by
  rw [not_mem_allMergingFunctions] at hf
  simp only [isMaskable, eMergeATop, eMergeAverage, eMergeColorBurn, eMergeColorDodge,
    eMergeConjointOver, eMergeCopy, eMergeDifference, eMergeDisjointOver, eMergeDivide,
    eMergeExclusion, eMergeFreeze, eMergeFrom, eMergeGeometric, eMergeHardLight,
    eMergeHypot, eMergeIn, eMergeInterpolated, eMergeMask, eMergeMatte, eMergeLighten,
    eMergeDarken, eMergeMinus, eMergeMultiply, eMergeOut, eMergeOver, eMergeOverlay,
    eMergePinLight, eMergePlus, eMergeReflect, eMergeScreen, eMergeSoftLight,
    eMergeStencil, eMergeUnder, eMergeXOR]
  delta MergingFunctionEnum at *
  split_ifs <;> first | rfl | omega

/-- Operator over writes `A[i] + B[i] * (1 - A[3] / maxValue)` to every channel. -/
theorem mergePixel_over_apply (nComponents : Nat) (maxValue : Int) (doAlphaMasking : Bool)
    (A B dst : Nat → K) (i : Nat) (hi : i < nComponents) :
    mergePixel eMergeOver nComponents maxValue doAlphaMasking A B dst i
      = A i + B i * (1 - A 3 / (maxValue : K)) := by
  have hm : isMaskable eMergeOver = false := by decide
  rw [mergePixel_apply, if_neg (by simp [hm]), if_pos hi, mergePixelSwitch_over]
  rfl

/-- Operator over with a fully opaque `A` (alpha `maxValue`, nonzero) writes `A`. -/
theorem mergePixel_over_opaque (nComponents : Nat) (maxValue : Int) (doAlphaMasking : Bool)
    (A B dst : Nat → K) (hM : maxValue ≠ 0) (h3 : A 3 = (maxValue : K)) (i : Nat)
    (hi : i < nComponents) :
    mergePixel eMergeOver nComponents maxValue doAlphaMasking A B dst i = A i := by
  have hM1 : (maxValue : K) ≠ 0 := by exact_mod_cast hM
  rw [mergePixel_over_apply nComponents maxValue doAlphaMasking A B dst i hi, h3,
    div_self hM1]
  ring

/-- C11: for operator over, every channel count, both values of `doAlphaMasking` and
all pixels `A`, `B`, `mergePixel` writes `dst[i] = A[i] + B[i] * (1 - A[3] / maxValue)`
for every `i < nComponents`; hence when `A[3] = maxValue` (a nonzero maximum) the
output is `A` on every channel, and for `A = [100, 0, 0, 200]`, `B = [0, 100, 0, 100]`,
`maxValue = 255` channel `0` is exactly `100`. -/
theorem mergePixel_over (nComponents : Nat) (maxValue : Int) (doAlphaMasking : Bool)
    (A B dst : Nat → K) :
    (∀ i, i < nComponents →
      mergePixel eMergeOver nComponents maxValue doAlphaMasking A B dst i
        = A i + B i * (1 - A 3 / (maxValue : K))) ∧
    (maxValue ≠ 0 → A 3 = (maxValue : K) → ∀ i, i < nComponents →
      mergePixel eMergeOver nComponents maxValue doAlphaMasking A B dst i = A i) ∧
    mergePixel eMergeOver 4 255 false (fun i => ([100, 0, 0, 200] : List ℝ).getD i 0)
      (fun i => ([0, 100, 0, 100] : List ℝ).getD i 0) (fun _ => 0) 0 = 100 ∧
    (∀ i, i < 4 →
      mergePixel eMergeOver 4 255 true (fun i => ([100, 50, 25, 255] : List ℝ).getD i 0)
        (fun i => ([10, 100, 200, 100] : List ℝ).getD i 0) (fun _ => 0) i
        = ([100, 50, 25, 255] : List ℝ).getD i 0) := by
  refine ⟨mergePixel_over_apply _ _ _ _ _ _, mergePixel_over_opaque _ _ _ _ _ _, ?_, ?_⟩
  · rw [mergePixel_over_apply _ _ _ _ _ _ _ (by norm_num)]
    norm_num
  · intro i hi
    exact mergePixel_over_opaque 4 255 true _ _ _ (by norm_num) (by norm_num) i hi

/-- C12, as the code has it: for every channel count, both values of
`doAlphaMasking` and all pixels `A`, `B`, `mergePixel` with operator plus writes
`dst[i] = A[i] + B[i]` for every `i < nComponents`, except that with
`doAlphaMasking = true` and `nComponents = 4` the alpha channel is
`dst[3] = A[3] + B[3] - A[3] * B[3] / maxValue`. -/
theorem mergePixel_plus (nComponents : Nat) (maxValue : Int) (doAlphaMasking : Bool)
    (A B dst : Nat → K) (i : Nat) (hi : i < nComponents) :
    mergePixel eMergePlus nComponents maxValue doAlphaMasking A B dst i
      = if doAlphaMasking = true ∧ nComponents = 4 ∧ i = 3 then
          A 3 + B 3 - A 3 * B 3 / (maxValue : K)
        else A i + B i := by
  have hm : isMaskable eMergePlus = true := by decide
  rw [mergePixel_apply, mergePixelSwitch_plus]
  by_cases h : doAlphaMasking = true ∧ nComponents = 4
  · obtain ⟨h1, h2⟩ := h
    subst h2
    rw [if_pos ⟨h1, hm, rfl⟩]
    by_cases h3 : i = 3
    · subst h3; simp [h1]
    · have : i < 3 := by omega
      simp [h3, this, plusFunctor]
  · rw [if_neg (fun hc => h ⟨hc.1, hc.2.2⟩), if_pos hi, if_neg (fun hc => h ⟨hc.1, hc.2.1⟩)]
    rfl

/-- Witness of C12 as amended: the four channels of two RGBA pixels, masking on. -/
theorem mergePixel_plus_witness :
    3 < 4 ∧
    mergePixel eMergePlus 4 1 true (fun _ => (1 : ℝ)) (fun _ => (1 : ℝ)) (fun _ => 0) 3
      = if true = true ∧ 4 = 4 ∧ 3 = 3 then (1 : ℝ) + 1 - 1 * 1 / ((1 : Int) : ℝ)
        else 1 + 1 :=
  ⟨by decide, mergePixel_plus 4 1 true (fun _ => (1 : ℝ)) (fun _ => (1 : ℝ)) (fun _ => 0) 3
    (by decide)⟩

/-- Counterexample to C12 as stated: with `doAlphaMasking = true` and four channels,
operator plus on two pixels of alpha `1` (`maxValue = 1`) writes `dst[3] = 1`, not
`A[3] + B[3] = 2`. -/
theorem mergePixel_plus_masking_alpha :
    mergePixel eMergePlus 4 1 true (fun _ => (1 : ℝ)) (fun _ => (1 : ℝ)) (fun _ => 0) 3 = 1 ∧
    ¬ (∀ i, i < 4 →
      mergePixel eMergePlus 4 1 true (fun _ => (1 : ℝ)) (fun _ => (1 : ℝ)) (fun _ => 0) i
        = (fun _ => (1 : ℝ)) i + (fun _ => (1 : ℝ)) i) := by
  have h : mergePixel eMergePlus 4 1 true (fun _ => (1 : ℝ)) (fun _ => (1 : ℝ))
      (fun _ => 0) 3 = 1 := by
    have hm : isMaskable eMergePlus = true := by decide
    rw [mergePixel_apply, if_pos ⟨rfl, hm, rfl⟩]
    norm_num
  refine ⟨h, fun hc => ?_⟩
  have h3 := hc 3 (by decide)
  rw [h] at h3
  norm_num at h3

/-- C13: operator multiply is commutative at the pixel level: for every `maxValue`,
every channel count, both values of `doAlphaMasking` and all pixels `A`, `B`,
`mergePixel` leaves the same contents in `dst` for `(A, B)` as for `(B, A)`. -/
theorem mergePixel_multiply_comm (nComponents : Nat) (maxValue : Int) (doAlphaMasking : Bool)
    (A B dst : Nat → K) :
    mergePixel eMergeMultiply nComponents maxValue doAlphaMasking A B dst
      = mergePixel eMergeMultiply nComponents maxValue doAlphaMasking B A dst := by
  funext i
  rw [mergePixel_apply, mergePixel_apply, mergePixelSwitch_multiply,
    mergePixelSwitch_multiply]
  simp only [multiplyFunctor, mul_comm (A i) (B i), mul_comm (A 3) (B 3),
    add_comm (A 3) (B 3)]

/-- C18, as the code has it: for every operator value that is none of the 34
enumerators, every channel count, both values of `doAlphaMasking` and all pixels,
`mergePixel` writes `0` to every channel `i < nComponents`, except that with
`doAlphaMasking = true` and `nComponents = 4` the alpha channel is
`dst[3] = A[3] + B[3] - A[3] * B[3] / maxValue`: `isMaskable` returns `true` on such
a value. -/
theorem mergePixel_unknown_operator (f : MergingFunctionEnum)
    (hf : f ∉ allMergingFunctions) (nComponents : Nat) (maxValue : Int)
    (doAlphaMasking : Bool) (A B dst : Nat → K) (i : Nat) (hi : i < nComponents) :
    mergePixel f nComponents maxValue doAlphaMasking A B dst i
      = if doAlphaMasking = true ∧ nComponents = 4 ∧ i = 3 then
          A 3 + B 3 - A 3 * B 3 / (maxValue : K)
        else 0 := by
  have hm : isMaskable f = true := isMaskable_default f hf
  rw [mergePixel_apply, mergePixelSwitch_default f hf]
  by_cases h : doAlphaMasking = true ∧ nComponents = 4
  · obtain ⟨h1, h2⟩ := h
    subst h2
    rw [if_pos ⟨h1, hm, rfl⟩]
    by_cases h3 : i = 3
    · subst h3; simp [h1]
    · have : i < 3 := by omega
      simp [h3, this]
  · rw [if_neg (fun hc => h ⟨hc.1, hc.2.2⟩), if_pos hi, if_neg (fun hc => h ⟨hc.1, hc.2.1⟩)]

/-- Witness of C18 as amended: the operator value `34`, three channels. -/
theorem mergePixel_unknown_operator_witness :
    (34 : MergingFunctionEnum) ∉ allMergingFunctions ∧ 1 < 3 ∧
    mergePixel 34 3 255 true (fun _ => (1 : ℝ)) (fun _ => (1 : ℝ)) (fun _ => 7) 1
      = if true = true ∧ 3 = 4 ∧ 1 = 3 then (1 : ℝ) + 1 - 1 * 1 / ((255 : Int) : ℝ)
        else 0 :=
  ⟨by decide, by decide,
    mergePixel_unknown_operator 34 (by decide) 3 255 true (fun _ => (1 : ℝ))
      (fun _ => (1 : ℝ)) (fun _ => 7) 1 (by decide)⟩

/-- Counterexample to C18 as stated: for the operator value `34`, with
`doAlphaMasking = true` and four channels, two pixels of alpha `1` (`maxValue = 1`) give
`dst[3] = 1`, not `0`. -/
theorem mergePixel_unknown_operator_alpha :
    (34 : MergingFunctionEnum) ∉ allMergingFunctions ∧
    mergePixel 34 4 1 true (fun _ => (1 : ℝ)) (fun _ => (1 : ℝ)) (fun _ => 0) 3 = 1 ∧
    ¬ (∀ i, i < 4 →
      mergePixel 34 4 1 true (fun _ => (1 : ℝ)) (fun _ => (1 : ℝ)) (fun _ => 0) i = 0) := by
  have hf : (34 : MergingFunctionEnum) ∉ allMergingFunctions := by decide
  have h : mergePixel 34 4 1 true (fun _ => (1 : ℝ)) (fun _ => (1 : ℝ)) (fun _ => 0) 3
      = 1 := by
    rw [mergePixel_apply, if_pos ⟨rfl, isMaskable_default 34 hf, rfl⟩]
    norm_num
  refine ⟨hf, h, fun hc => ?_⟩
  have h3 := hc 3 (by decide)
  rw [h] at h3
  norm_num at h3

end MergingTheorems

/-! ### Soft-light -/

/-- The real square root of `1 / 4` is `1 / 2`. -/
theorem sqrt_quarter : Real.sqrt (1 / 4) = 1 / 2 := by
  rw [show (1 / 4 : ℝ) = (1 / 2) ^ 2 by norm_num]
  exact Real.sqrt_sq (by norm_num)

/-- C16: for real `A`, `B` and `An = A / M`, `Bn = B / M`, `softLightFunctor` returns
`M (Bn - (1 - 2 An) Bn (1 - Bn))` when `2 An ≤ 1`,
`M (Bn + (2 An - 1) (4 Bn (4 Bn + 1) (Bn - 1) + 7 Bn))` when `2 An > 1` and `4 Bn ≤ 1`,
and `M (Bn + (2 An - 1) (sqrt Bn - Bn))` otherwise; the branches agree at the
boundaries: at `An = 1 / 2` the three expressions equal `M Bn`, and at `Bn = 1 / 4` the
second and the third are equal. -/
theorem softLightFunctor_eq :
    (∀ (maxValue : Int) (A B : ℝ),
      softLightFunctor maxValue A B
        = if 2 * (A / maxValue) ≤ 1 then softLightDark (maxValue : ℝ) (A / maxValue) (B / maxValue)
          else if 4 * (B / maxValue) ≤ 1 then
            softLightPoly (maxValue : ℝ) (A / maxValue) (B / maxValue)
          else softLightSqrt (maxValue : ℝ) (A / maxValue) (B / maxValue)) ∧
    (∀ M An Bn : ℝ,
      softLightDark M An Bn = M * (Bn - (1 - 2 * An) * Bn * (1 - Bn)) ∧
      softLightPoly M An Bn
        = M * (Bn + (2 * An - 1) * (4 * Bn * (4 * Bn + 1) * (Bn - 1) + 7 * Bn)) ∧
      softLightSqrt M An Bn = M * (Bn + (2 * An - 1) * (Real.sqrt Bn - Bn))) ∧
    (∀ M Bn : ℝ, softLightDark M (1 / 2) Bn = M * Bn ∧ softLightPoly M (1 / 2) Bn = M * Bn ∧
      softLightSqrt M (1 / 2) Bn = M * Bn) ∧
    (∀ M An : ℝ, softLightPoly M An (1 / 4) = softLightSqrt M An (1 / 4)) := by
  refine ⟨?_, ?_, ?_, ?_⟩
  · intro maxValue A B
    rfl
  · intro M An Bn
    exact ⟨rfl, rfl, rfl⟩
  · intro M Bn
    refine ⟨?_, ?_, ?_⟩
    · simp only [softLightDark]; ring
    · simp only [softLightPoly]; ring
    · simp only [softLightSqrt]; ring
  · intro M An
    simp only [softLightPoly, softLightSqrt, CMath.sqrt, sqrt_quarter]
    ring

/-! ### Divisions by zero -/

section CheckedTheorems

variable {K : Type} [LinearOrderedField K]

/-- A checked division whose denominator is not zero is the division. -/
theorem checkedDiv_of_ne (x y : K) (hy : y ≠ 0) : checkedDiv x y = some (x / y) := by
  simp [checkedDiv, hy]

/-- A checked division is `none` exactly when its denominator is zero. -/
theorem checkedDiv_eq_none (x y : K) : checkedDiv x y = none ↔ y = 0 := by
  unfold checkedDiv
  split_ifs with h <;> simp [h]

/-- When no denominator is zero, the checked functors return what `geometricFunctor`,
`conjointOverFunctor` and `disjointOverFunctor` return. -/
theorem checked_functors_eq (maxValue : Int) (A B alphaA alphaB : K) :
    (A + B ≠ 0 → geometricFunctorChecked A B = some (geometricFunctor A B)) ∧
    (alphaB ≠ 0 → conjointOverFunctorChecked maxValue A B alphaA alphaB
      = some (conjointOverFunctor maxValue A B alphaA alphaB)) ∧
    (alphaB ≠ 0 → disjointOverFunctorChecked maxValue A B alphaA alphaB
      = some (disjointOverFunctor maxValue A B alphaA alphaB)) := by
  refine ⟨fun h => ?_, fun h => ?_, fun h => ?_⟩
  · simp [geometricFunctorChecked, geometricFunctor, checkedDiv, h]
  · simp only [conjointOverFunctorChecked, conjointOverFunctor, checkedDiv_of_ne _ _ h]
    split_ifs <;> rfl
  · simp only [disjointOverFunctorChecked, disjointOverFunctor, checkedDiv_of_ne _ _ h]
    split_ifs <;> rfl

/-- C15, evaluated on the code: with all values in `[0, maxValue]`, `geometricFunctor`
divides by zero exactly when `A = B = 0`, `conjointOverFunctor` exactly when
`alphaA = alphaB = 0`, and `disjointOverFunctor` exactly when `alphaA = maxValue` and
`alphaB = 0`; so each of the three divides by zero on some pixels, as for
`maxValue = 255` on `A = B = 0`, on `alphaA = alphaB = 0` and on `alphaA = 255`,
`alphaB = 0`. -/
theorem unguarded_functors_divide_by_zero :
    (∀ (maxValue : Int) (A B alphaA alphaB : K),
      0 ≤ A → 0 ≤ B → 0 ≤ alphaA → alphaA ≤ (maxValue : K) → 0 ≤ alphaB →
      (geometricFunctorChecked A B = none ↔ A = 0 ∧ B = 0) ∧
      (conjointOverFunctorChecked maxValue A B alphaA alphaB = none
        ↔ alphaA = 0 ∧ alphaB = 0) ∧
      (disjointOverFunctorChecked maxValue A B alphaA alphaB = none
        ↔ alphaA = (maxValue : K) ∧ alphaB = 0)) ∧
    geometricFunctorChecked (0 : ℚ) 0 = none ∧
    conjointOverFunctorChecked 255 (10 : ℚ) 20 0 0 = none ∧
    disjointOverFunctorChecked 255 (10 : ℚ) 20 255 0 = none := by
  refine ⟨?_, ?_, ?_, ?_⟩
  · intro maxValue A B alphaA alphaB hA hB ha haM hb
    refine ⟨?_, ?_, ?_⟩
    · rw [geometricFunctorChecked, checkedDiv_eq_none]
      constructor
      · intro h
        constructor <;> linarith
      · rintro ⟨rfl, rfl⟩
        simp
    · unfold conjointOverFunctorChecked
      split_ifs with h
      · constructor
        · intro hc; cases hc
        · rintro ⟨h1, h2⟩
          rw [h1, h2] at h
          exact absurd h (lt_irrefl _)
      · rw [Option.map_eq_none', checkedDiv_eq_none]
        constructor
        · intro h0
          refine ⟨?_, h0⟩
          rw [h0] at h
          exact le_antisymm (not_lt.mp h) ha
        · exact fun hc => hc.2
    · unfold disjointOverFunctorChecked
      split_ifs with h
      · constructor
        · intro hc; cases hc
        · rintro ⟨h1, h2⟩
          rw [h1, h2] at h
          simp at h
      · rw [Option.map_eq_none', checkedDiv_eq_none]
        constructor
        · intro h0
          refine ⟨?_, h0⟩
          rw [h0, add_zero] at h
          exact le_antisymm haM (not_lt.mp h)
        · exact fun hc => hc.2
  · simp [geometricFunctorChecked, checkedDiv]
  · simp [conjointOverFunctorChecked, checkedDiv]
  · simp [disjointOverFunctorChecked, checkedDiv]

end CheckedTheorems

/-! ### Integer pixel types -/

/-- While the `int` product `A * B` does not overflow, `multiplyFunctor` on 16-bit pixels
is `A * B / 65535` rounded down. -/
theorem multiplyFunctorUInt_of_no_overflow (A B : Int) (hA : 0 ≤ A) (hB : 0 ≤ B)
    (h : A * B ≤ 2147483647) :
    multiplyFunctorUInt 16 65535 A B = A * B / 65535 := by
  have hp : 0 ≤ A * B := mul_nonneg hA hB
  have hw : wrapInt32 (A * B) = A * B := by
    unfold wrapInt32; omega
  have hq : A * B / 65535 ≤ 32768 := by omega
  unfold multiplyFunctorUInt truncDiv toPIX
  rw [hw, Int.tdiv_eq_ediv hp (by norm_num)]
  omega

/-- C14, evaluated on the code: for the 16-bit pixel type, `A = B = 65535` are channel
values in `0..65535` whose `int` product `4294836225` wraps to `-131071`; the quotient
by `65535.` truncates to `-2`, which is no value of the pixel type and is stored as
`65534`, whereas `A * B / 65535` is `65535`. -/
theorem multiplyFunctorUInt_overflow :
    wrapInt32 (65535 * 65535) = -131071 ∧
    truncDiv (wrapInt32 (65535 * 65535)) 65535 = -2 ∧
    multiplyFunctorUInt 16 65535 65535 65535 = 65534 ∧
    truncDiv (65535 * 65535) 65535 = 65535 ∧
    multiplyFunctorUInt 16 65535 65535 65535 ≠ truncDiv (65535 * 65535) 65535 := by
  decide

section PinLightTheorems

variable {K : Type} [LinearOrderedField K]

end PinLightTheorems

/-! ### Rectangles -/

section RectTheorems

variable {α : Type} [LinearOrder α] [Zero α]

/-- The result of `rectIntersection` on a non-null pointer: `false` and the zero rect
when an input is empty or the rects are apart, `true` and the maximin bounds
otherwise. -/
theorem rectIntersection_some (r1 r2 i : OfxRect α) :
    rectIntersection r1 r2 (some i)
      = if rectIsEmpty r1 = true ∨ rectIsEmpty r2 = true ∨ r1.x1 > r2.x2 ∨ r2.x1 > r1.x2 ∨
            r1.y1 > r2.y2 ∨ r2.y1 > r1.y2 then
          (false, some (OfxRect.mk 0 0 0 0))
        else
          (true, some (OfxRect.mk (max r1.x1 r2.x1) (max r1.y1 r2.y1)
            (max (max r1.x1 r2.x1) (min r1.x2 r2.x2))
            (max (max r1.y1 r2.y1) (min r1.y2 r2.y2)))) := by
  unfold rectIntersection
  by_cases h1 : rectIsEmpty r1 = true
  · simp [h1]
  by_cases h2 : rectIsEmpty r2 = true
  · simp [h2]
  by_cases h3 : r1.x1 > r2.x2 ∨ r2.x1 > r1.x2 ∨ r1.y1 > r2.y2 ∨ r2.y1 > r1.y2
  · have h3' : (decide (r1.x1 > r2.x2) || decide (r2.x1 > r1.x2) || decide (r1.y1 > r2.y2)
        || decide (r2.y1 > r1.y2)) = true := by
      simpa [or_assoc] using h3
    rw [if_neg (by simp [h1, h2]), if_pos h3', if_pos (Or.inr (Or.inr h3))]
    rfl
  · have h3' : ¬ (decide (r1.x1 > r2.x2) || decide (r2.x1 > r1.x2) || decide (r1.y1 > r2.y2)
        || decide (r2.y1 > r1.y2)) = true := by
      simpa [or_assoc] using h3
    rw [if_neg (by simp [h1, h2]), if_neg h3',
      if_neg (fun hc => hc.elim h1 (fun hc => hc.elim h2 h3))]
    rfl

/-- When `rectIntersection` returns `true`, both inputs are not empty and they are not
apart: the largest lower bound is at most the smallest upper bound, in `x` and in `y`. -/
theorem rectIntersection_true_bounds (r1 r2 i : OfxRect α)
    (h : (rectIntersection r1 r2 (some i)).1 = true) :
    max r1.x1 r2.x1 ≤ min r1.x2 r2.x2 ∧ max r1.y1 r2.y1 ≤ min r1.y2 r2.y2 := by
  rw [rectIntersection_some] at h
  split_ifs at h with hc
  simp only [rectIsEmpty, Bool.or_eq_true, decide_eq_true_eq, not_or, not_le, not_lt,
    gt_iff_lt] at hc
  obtain ⟨⟨a1, a2⟩, ⟨b1, b2⟩, c1, c2, c3, c4⟩ := hc
  exact ⟨max_le (le_min a1.le c1) (le_min c2 b1.le),
    max_le (le_min a2.le c3) (le_min c4 b2.le)⟩

/-- C19, as the code has it: `rectIntersection` returns `false` exactly when an input
is empty (`rectIsEmpty`) or the rects are apart (`r1.x1 > r2.x2`, `r2.x1 > r1.x2`,
`r1.y1 > r2.y2` or `r2.y1 > r1.y2`), and it then writes the zero rect; when it returns
`true` the rect it writes is not inverted, and it is empty per `rectIsEmpty` exactly
when the rects only touch, the largest lower bound being the smallest upper bound in
`x` or in `y`.  The rects `{0,0,10,10}` and `{20,20,30,30}` give `({0,0,0,0}, false)`. -/
theorem rectIntersection_false_iff (r1 r2 i : OfxRect α) :
    ((rectIntersection r1 r2 (some i)).1 = false ↔
      (rectIsEmpty r1 = true ∨ rectIsEmpty r2 = true ∨ r1.x1 > r2.x2 ∨ r2.x1 > r1.x2 ∨
        r1.y1 > r2.y2 ∨ r2.y1 > r1.y2)) ∧
    ((rectIntersection r1 r2 (some i)).1 = false →
      (rectIntersection r1 r2 (some i)).2 = some (OfxRect.mk 0 0 0 0)) ∧
    ((rectIntersection r1 r2 (some i)).1 = true →
      ∃ r, (rectIntersection r1 r2 (some i)).2 = some r ∧ r.x1 ≤ r.x2 ∧ r.y1 ≤ r.y2 ∧
        (rectIsEmpty r = true ↔
          (max r1.x1 r2.x1 = min r1.x2 r2.x2 ∨ max r1.y1 r2.y1 = min r1.y2 r2.y2))) ∧
    rectIntersection (OfxRect.mk (0 : Int) 0 10 10) (OfxRect.mk 20 20 30 30)
      (some (OfxRect.mk 1 2 3 4)) = (false, some (OfxRect.mk 0 0 0 0)) := by
  refine ⟨?_, ?_, ?_, by decide⟩
  · rw [rectIntersection_some]
    split_ifs with hc <;> simp [hc]
  · rw [rectIntersection_some]
    split_ifs with hc <;> simp
  · intro h
    obtain ⟨hx, hy⟩ := rectIntersection_true_bounds r1 r2 i h
    rw [rectIntersection_some] at h ⊢
    split_ifs at h ⊢ with hc
    refine ⟨_, rfl, le_max_left _ _, le_max_left _ _, ?_⟩
    simp only [rectIsEmpty, Bool.or_eq_true, decide_eq_true_eq, max_eq_right hx,
      max_eq_right hy]
    constructor
    · rintro (h1 | h1)
      · exact Or.inl (le_antisymm hx h1)
      · exact Or.inr (le_antisymm hy h1)
    · rintro (h1 | h1)
      · exact Or.inl h1.ge
      · exact Or.inr h1.ge

/-- Counterexample to C19 as stated: `{0,0,10,10}` and `{10,0,20,10}` are not empty and
share only the edge `x = 10`; `rectIntersection` returns `true` and writes
`{10,0,10,10}`, which is empty per `rectIsEmpty`, as is the rect of the largest lower
and smallest upper bounds. -/
theorem rectIntersection_touching :
    rectIsEmpty (OfxRect.mk (0 : Int) 0 10 10) = false ∧
    rectIsEmpty (OfxRect.mk (10 : Int) 0 20 10) = false ∧
    rectIsEmpty (OfxRect.mk (max (0 : Int) 10) (max 0 0) (min 10 20) (min 10 10)) = true ∧
    rectIntersection (OfxRect.mk (0 : Int) 0 10 10) (OfxRect.mk 10 0 20 10)
      (some (OfxRect.mk 0 0 0 0)) = (true, some (OfxRect.mk 10 0 10 10)) ∧
    rectIsEmpty (OfxRect.mk (10 : Int) 0 10 10) = true := by
  decide

/-- C20: whenever `rectIntersection` returns `true`, the rect it writes is the
intersection, `x1 = max r1.x1 r2.x1`, `y1 = max r1.y1 r2.y1`, `x2 = min r1.x2 r2.x2`,
`y2 = min r1.y2 r2.y2`; it is not inverted and it is contained in `r1` and in `r2`. -/
theorem rectIntersection_true (r1 r2 i : OfxRect α)
    (h : (rectIntersection r1 r2 (some i)).1 = true) :
    ∃ r, (rectIntersection r1 r2 (some i)).2 = some r ∧
      r.x1 = max r1.x1 r2.x1 ∧ r.y1 = max r1.y1 r2.y1 ∧
      r.x2 = min r1.x2 r2.x2 ∧ r.y2 = min r1.y2 r2.y2 ∧
      r.x1 ≤ r.x2 ∧ r.y1 ≤ r.y2 ∧
      (r1.x1 ≤ r.x1 ∧ r1.y1 ≤ r.y1 ∧ r.x2 ≤ r1.x2 ∧ r.y2 ≤ r1.y2) ∧
      (r2.x1 ≤ r.x1 ∧ r2.y1 ≤ r.y1 ∧ r.x2 ≤ r2.x2 ∧ r.y2 ≤ r2.y2) := by
  obtain ⟨hx, hy⟩ := rectIntersection_true_bounds r1 r2 i h
  rw [rectIntersection_some] at h ⊢
  split_ifs at h ⊢ with hc
  refine ⟨_, rfl, rfl, rfl, max_eq_right hx, max_eq_right hy, le_max_left _ _,
    le_max_left _ _, ?_, ?_⟩
  · simp only [max_eq_right hx, max_eq_right hy]
    exact ⟨le_max_left _ _, le_max_left _ _, min_le_left _ _, min_le_left _ _⟩
  · simp only [max_eq_right hx, max_eq_right hy]
    exact ⟨le_max_right _ _, le_max_right _ _, min_le_right _ _, min_le_right _ _⟩

/-- Witness of C20: `{0,0,10,10}` and `{5,5,15,15}` give `({5,5,10,10}, true)`. -/
theorem rectIntersection_true_witness :
    rectIntersection (OfxRect.mk (0 : Int) 0 10 10) (OfxRect.mk 5 5 15 15)
      (some (OfxRect.mk 0 0 0 0)) = (true, some (OfxRect.mk 5 5 10 10)) ∧
    ∃ r, (rectIntersection (OfxRect.mk (0 : Int) 0 10 10) (OfxRect.mk 5 5 15 15)
        (some (OfxRect.mk 0 0 0 0))).2 = some r ∧
      r.x1 = max 0 5 ∧ r.y1 = max 0 5 ∧ r.x2 = min 10 15 ∧ r.y2 = min 10 15 ∧
      r.x1 ≤ r.x2 ∧ r.y1 ≤ r.y2 ∧
      (0 ≤ r.x1 ∧ 0 ≤ r.y1 ∧ r.x2 ≤ 10 ∧ r.y2 ≤ 10) ∧
      (5 ≤ r.x1 ∧ 5 ≤ r.y1 ∧ r.x2 ≤ 15 ∧ r.y2 ≤ 15) :=
  ⟨by decide,
    rectIntersection_true (OfxRect.mk (0 : Int) 0 10 10) (OfxRect.mk 5 5 15 15)
      (OfxRect.mk 0 0 0 0) (by decide)⟩

end RectTheorems

section BoundingBoxTheorems

variable {α : Type} [LinearOrder α]

/-- C21: for all rects `a` and `b`, `rectBoundingBox` writes `x1 = min a.x1 b.x1`,
`y1 = min a.y1 b.y1`, `x2 ≥ max a.x2 b.x2`, `y2 ≥ max a.y2 b.y2` with `x1 ≤ x2` and
`y1 ≤ y2`, so the result contains both inputs; and when `a` and `b` are well-formed the
upper bounds are exactly `max a.x2 b.x2` and `max a.y2 b.y2`. -/
theorem rectBoundingBox_bounds (a b bbox : OfxRect α) :
    (rectBoundingBox a b bbox).x1 = min a.x1 b.x1 ∧
    (rectBoundingBox a b bbox).y1 = min a.y1 b.y1 ∧
    max a.x2 b.x2 ≤ (rectBoundingBox a b bbox).x2 ∧
    max a.y2 b.y2 ≤ (rectBoundingBox a b bbox).y2 ∧
    (rectBoundingBox a b bbox).x1 ≤ (rectBoundingBox a b bbox).x2 ∧
    (rectBoundingBox a b bbox).y1 ≤ (rectBoundingBox a b bbox).y2 ∧
    ((rectBoundingBox a b bbox).x1 ≤ a.x1 ∧ (rectBoundingBox a b bbox).y1 ≤ a.y1 ∧
      a.x2 ≤ (rectBoundingBox a b bbox).x2 ∧ a.y2 ≤ (rectBoundingBox a b bbox).y2) ∧
    ((rectBoundingBox a b bbox).x1 ≤ b.x1 ∧ (rectBoundingBox a b bbox).y1 ≤ b.y1 ∧
      b.x2 ≤ (rectBoundingBox a b bbox).x2 ∧ b.y2 ≤ (rectBoundingBox a b bbox).y2) ∧
    (a.x1 ≤ a.x2 → a.y1 ≤ a.y2 → b.x1 ≤ b.x2 → b.y1 ≤ b.y2 →
      (rectBoundingBox a b bbox).x2 = max a.x2 b.x2 ∧
      (rectBoundingBox a b bbox).y2 = max a.y2 b.y2) ∧
    rectBoundingBox (OfxRect.mk (0 : Int) 0 10 10) (OfxRect.mk 5 (-5) 15 8)
      (OfxRect.mk 0 0 0 0) = OfxRect.mk 0 (-5) 15 10 := by
  simp only [rectBoundingBox]
  refine ⟨trivial, trivial, le_max_right _ _, le_max_right _ _, le_max_left _ _,
    le_max_left _ _,
    ⟨min_le_left _ _, min_le_left _ _, ?_, ?_⟩, ⟨min_le_right _ _, min_le_right _ _, ?_, ?_⟩,
    ?_, by decide⟩
  · exact le_trans (le_max_left _ _) (le_max_right _ _)
  · exact le_trans (le_max_left _ _) (le_max_right _ _)
  · exact le_trans (le_max_right _ _) (le_max_right _ _)
  · exact le_trans (le_max_right _ _) (le_max_right _ _)
  · intro hax hay _ _
    exact ⟨max_eq_right (le_trans (min_le_left _ _) (le_trans hax (le_max_left _ _))),
      max_eq_right (le_trans (min_le_left _ _) (le_trans hay (le_max_left _ _)))⟩

end BoundingBoxTheorems

/-! ### Downscaling by a power of two -/

/-- A value in the range of `int` is not changed by the wrap-around. -/
theorem wrapInt32_of_mem (x : Int) (h1 : -2147483648 ≤ x) (h2 : x ≤ 2147483647) :
    wrapInt32 x = x := by
  unfold wrapInt32; omega

/-- For a level of at most `30`, `1 << level` is between `1` and `2 ^ 30`. -/
theorem two_pow_le_of_le_thirty (level : Nat) (hl : level ≤ 30) :
    (1 : Int) ≤ 2 ^ level ∧ (2 : Int) ^ level ≤ 1073741824 := by
  constructor
  · exact one_le_pow₀ (by norm_num)
  · calc (2 : Int) ^ level ≤ 2 ^ 30 := pow_le_pow_right₀ (by norm_num) hl
      _ = 1073741824 := by norm_num

/-- The floor of `x / 2 ^ level` is the integer quotient. -/
theorem floor_div_two_pow (x : Int) (level : Nat) :
    ⌊(x : ℚ) / 2 ^ level⌋ = x / 2 ^ level := by
  have h := Rat.floor_intCast_div_natCast x (2 ^ level)
  push_cast at h
  exact h

/-- The ceiling of `x / 2 ^ level` is the integer quotient of `x + 2 ^ level - 1`. -/
theorem ceil_div_two_pow (x : Int) (level : Nat) :
    ⌈(x : ℚ) / 2 ^ level⌉ = (x + 2 ^ level - 1) / 2 ^ level := by
  have hp : (0 : Int) < 2 ^ level := by positivity
  have hpq : (0 : ℚ) < 2 ^ level := by positivity
  rw [Int.ceil_eq_iff]
  have h1 := Int.emod_add_ediv (x + 2 ^ level - 1) (2 ^ level)
  have h2 := Int.emod_nonneg (x + 2 ^ level - 1) (ne_of_gt hp)
  have h3 := Int.emod_lt_of_pos (x + 2 ^ level - 1) hp
  set q := (x + 2 ^ level - 1) / 2 ^ level with hq
  set m := (x + 2 ^ level - 1) % 2 ^ level with hm
  have hx : x = m + 2 ^ level * q - 2 ^ level + 1 := by linarith
  have hxq : (x : ℚ) = m + 2 ^ level * q - 2 ^ level + 1 := by
    rw [hx]; push_cast; ring
  have h2q : (0 : ℚ) ≤ m := by exact_mod_cast h2
  have h3q : (m : ℚ) + 1 ≤ 2 ^ level := by exact_mod_cast h3
  constructor
  · rw [lt_div_iff₀ hpq, hxq]
    nlinarith
  · rw [div_le_iff₀ hpq, hxq]
    nlinarith

/-- The arithmetic shift to the right by `level` is the integer quotient by
`2 ^ level`. -/
theorem shiftRight_eq_ediv (x : Int) (level : Nat) : x >>> level = x / 2 ^ level := by
  rw [Int.shiftRight_eq_div_pow]
  push_cast
  rfl

/-- The lower bound computed by `downscalePowerOfTwoSmallestEnclosing` for a bound `x`
that is not the sentinel, and the upper bound for a bound whose sum with
`2 ^ level - 1` does not overflow. -/
theorem downscale_bounds (x : Int) (level : Nat) (hl : level ≤ 30) :
    x >>> level = ⌊(x : ℚ) / 2 ^ level⌋ ∧
    (-2147483648 ≤ x → x + 2 ^ level - 1 ≤ 2147483647 →
      wrapInt32 (x + wrapInt32 (wrapInt32 (2 ^ level) - 1)) >>> level
        = ⌈(x : ℚ) / 2 ^ level⌉) := by
  obtain ⟨hp1, hp2⟩ := two_pow_le_of_le_thirty level hl
  refine ⟨by rw [floor_div_two_pow, shiftRight_eq_ediv], fun h1 h2 => ?_⟩
  rw [wrapInt32_of_mem (2 ^ level) (by omega) (by omega),
    wrapInt32_of_mem (2 ^ level - 1) (by omega) (by omega),
    wrapInt32_of_mem (x + (2 ^ level - 1)) (by omega) (by omega), ceil_div_two_pow,
    shiftRight_eq_ediv]
  congr 1
  ring

/-- C22, evaluated on the code: the well-formed rect `{0, 0, 2147483646, 10}` at level
`2` has `r.x2 + 3` above `INT_MAX`; the sum wraps to `-2147483647` and `ret.x2` is
`-536870912`, so `ret.x2 * 2 ^ 2 < r.x2`: the result does not enclose `r`, and the
assertion `ret.x2 * pot >= r.x2` fails.  At level `31`, `1 << 31` itself overflows and
the rect `{0, 0, 1, 1}` gets `ret.x2 = -1`. -/
theorem downscalePowerOfTwoSmallestEnclosing_overflow :
    (0 : Int) ≤ 2147483646 ∧ (0 : Int) ≤ 10 ∧ (2147483646 : Int) < kOfxFlagInfiniteMax ∧
    downscalePowerOfTwoSmallestEnclosing (OfxRect.mk 0 0 2147483646 10) 2
      = OfxRect.mk 0 0 (-536870912) 3 ∧
    ¬ ((downscalePowerOfTwoSmallestEnclosing (OfxRect.mk 0 0 2147483646 10) 2).x2 * 2 ^ 2
      ≥ 2147483646) ∧
    downscaleAssertions (OfxRect.mk 0 0 2147483646 10) 2 = false ∧
    downscalePowerOfTwoSmallestEnclosing (OfxRect.mk 0 0 1 1) 31 = OfxRect.mk 0 0 (-1) (-1) ∧
    downscaleAssertions (OfxRect.mk 0 0 1 1) 31 = false := by
  decide

/-- C24: for every level in `0..30` and 32-bit bounds, a lower bound that is not the
sentinel becomes `floor (r.x1 / 2 ^ level)`, an upper bound that is not the sentinel
and whose sum with `2 ^ level - 1` does not overflow becomes
`ceil (r.x2 / 2 ^ level)`, a bound equal to its sentinel is returned unchanged, and
level `0` returns `r` unchanged. -/
theorem downscalePowerOfTwoSmallestEnclosing_eq (r : OfxRect Int) (level : Nat)
    (hl : level ≤ 30)
    (hx1 : kOfxFlagInfiniteMin ≤ r.x1) (hy1 : kOfxFlagInfiniteMin ≤ r.y1)
    (hx2 : kOfxFlagInfiniteMin ≤ r.x2 ∧ r.x2 ≤ kOfxFlagInfiniteMax)
    (hy2 : kOfxFlagInfiniteMin ≤ r.y2 ∧ r.y2 ≤ kOfxFlagInfiniteMax) :
    (r.x1 ≠ kOfxFlagInfiniteMin →
      (downscalePowerOfTwoSmallestEnclosing r level).x1 = ⌊(r.x1 : ℚ) / 2 ^ level⌋) ∧
    (r.y1 ≠ kOfxFlagInfiniteMin →
      (downscalePowerOfTwoSmallestEnclosing r level).y1 = ⌊(r.y1 : ℚ) / 2 ^ level⌋) ∧
    (r.x2 ≠ kOfxFlagInfiniteMax → r.x2 + 2 ^ level - 1 ≤ 2147483647 →
      (downscalePowerOfTwoSmallestEnclosing r level).x2 = ⌈(r.x2 : ℚ) / 2 ^ level⌉) ∧
    (r.y2 ≠ kOfxFlagInfiniteMax → r.y2 + 2 ^ level - 1 ≤ 2147483647 →
      (downscalePowerOfTwoSmallestEnclosing r level).y2 = ⌈(r.y2 : ℚ) / 2 ^ level⌉) ∧
    (r.x1 = kOfxFlagInfiniteMin → (downscalePowerOfTwoSmallestEnclosing r level).x1 = r.x1) ∧
    (r.y1 = kOfxFlagInfiniteMin → (downscalePowerOfTwoSmallestEnclosing r level).y1 = r.y1) ∧
    (r.x2 = kOfxFlagInfiniteMax → (downscalePowerOfTwoSmallestEnclosing r level).x2 = r.x2) ∧
    (r.y2 = kOfxFlagInfiniteMax → (downscalePowerOfTwoSmallestEnclosing r level).y2 = r.y2) ∧
    (level = 0 → downscalePowerOfTwoSmallestEnclosing r level = r) := by
  unfold kOfxFlagInfiniteMin at hx1 hy1 hx2 hy2
  unfold kOfxFlagInfiniteMax at hx2 hy2
  by_cases h0 : level = 0
  · subst h0
    simp [downscalePowerOfTwoSmallestEnclosing]
  · simp only [downscalePowerOfTwoSmallestEnclosing, if_neg h0, kOfxFlagInfiniteMin,
      kOfxFlagInfiniteMax]
    refine ⟨fun h => ?_, fun h => ?_, fun h h' => ?_, fun h h' => ?_, fun h => ?_,
      fun h => ?_, fun h => ?_, fun h => ?_, fun h => absurd h h0⟩
    · rw [if_neg (by omega)]
      exact (downscale_bounds r.x1 level hl).1
    · rw [if_neg (by omega)]
      exact (downscale_bounds r.y1 level hl).1
    · rw [if_neg (by omega)]
      exact (downscale_bounds r.x2 level hl).2 hx2.1 h'
    · rw [if_neg (by omega)]
      exact (downscale_bounds r.y2 level hl).2 hy2.1 h'
    · rw [if_pos (by omega), h]
    · rw [if_pos (by omega), h]
    · rw [if_pos (by omega), h]
    · rw [if_pos (by omega), h]

/-- Witness of C24: the rect `{-5, -2147483648, 7, 2147483647}` at level `2` becomes
`{-2, -2147483648, 2, 2147483647}`. -/
theorem downscalePowerOfTwoSmallestEnclosing_eq_witness :
    downscalePowerOfTwoSmallestEnclosing (OfxRect.mk (-5) (-2147483648) 7 2147483647) 2
      = OfxRect.mk (-2) (-2147483648) 2 2147483647 ∧
    (downscalePowerOfTwoSmallestEnclosing
      (OfxRect.mk (-5) (-2147483648) 7 2147483647) 2).x1 = ⌊((-5 : Int) : ℚ) / 2 ^ 2⌋ ∧
    (downscalePowerOfTwoSmallestEnclosing
      (OfxRect.mk (-5) (-2147483648) 7 2147483647) 2).x2 = ⌈((7 : Int) : ℚ) / 2 ^ 2⌉ :=
  ⟨by decide,
    (downscalePowerOfTwoSmallestEnclosing_eq (OfxRect.mk (-5) (-2147483648) 7 2147483647) 2
      (by decide) (by decide) (by decide) (by decide) (by decide)).1 (by decide),
    (downscalePowerOfTwoSmallestEnclosing_eq (OfxRect.mk (-5) (-2147483648) 7 2147483647) 2
      (by decide) (by decide) (by decide) (by decide) (by decide)).2.2.1 (by decide)
      (by decide)⟩

/-! ### Mipmap levels -/

/-- The level computed by `mipmapLevelFromScale` is the ceiling of the opposite of the
quotient `log s / M_LN2`, less one half. -/
theorem mipmapLevelFromScale_eq_ceil (c s : ℝ) :
    mipmapLevelFromScale c s = ⌈-(Real.log s / c) - 1 / 2⌉ := by
  unfold mipmapLevelFromScale
  rw [← Int.ceil_neg]
  congr 1
  simp only [CMathLog.log]
  norm_num
  ring

/-- For a level of at most `30`, `scaleFromMipmapLevel` is `1 / 2 ^ level`. -/
theorem scaleFromMipmapLevel_eq (L : Nat) (hL : L ≤ 30) :
    (scaleFromMipmapLevel L : ℝ) = 1 / 2 ^ L := by
  obtain ⟨h1, h2⟩ := two_pow_le_of_le_thirty L hL
  have hw : wrapInt32 (2 ^ L) = 2 ^ L := wrapInt32_of_mem _ (by omega) (by omega)
  unfold scaleFromMipmapLevel
  rw [hw]
  push_cast
  rfl

/-- The logarithm of `1 / 2 ^ L`. -/
theorem log_one_div_two_pow (L : Nat) : Real.log (1 / 2 ^ L) = -(L * Real.log 2) := by
  rw [one_div, Real.log_inv, Real.log_pow]

/-- The round trip through `scaleFromMipmapLevel` gives the level back for every value
of `M_LN2` that agrees with `ln 2` to seven digits. -/
theorem mipmapLevelFromScale_scaleFromMipmapLevel_of_close (c : ℝ) (hc1 : 0.6931471 < c)
    (hc2 : c < 0.6931472) (L : Nat) (hL : L ≤ 30) :
    mipmapLevelFromScale c (scaleFromMipmapLevel L : ℝ) = L := by
  have hl1 := Real.log_two_gt_d9
  have hl2 := Real.log_two_lt_d9
  have hc : 0 < c := by linarith
  have hLr : (L : ℝ) ≤ 30 := by exact_mod_cast hL
  have hL0 : (0 : ℝ) ≤ L := Nat.cast_nonneg L
  rw [mipmapLevelFromScale_eq_ceil, scaleFromMipmapLevel_eq L hL, log_one_div_two_pow,
    Int.ceil_eq_iff]
  have e : -(-(L * Real.log 2) / c) - 1 / 2 = (L * Real.log 2) / c - 1 / 2 := by ring
  rw [e]
  push_cast
  constructor
  · rw [lt_sub_iff_add_lt, lt_div_iff₀ hc]
    nlinarith
  · rw [sub_le_iff_le_add, div_le_iff₀ hc]
    nlinarith

/-- The halves of the real line: at the real number `1 / sqrt 2`, which is irrational
and so the value of no `double`, `-log2 s = 1/2`; there the formula of
`mipmapLevelFromScale` gives `0`, the half rounded toward zero. -/
theorem mipmapLevelFromScale_half :
    (0 : ℝ) < 1 / Real.sqrt 2 ∧ 1 / Real.sqrt 2 ≤ 1 ∧
    -Real.logb 2 (1 / Real.sqrt 2) = 1 / 2 ∧
    mipmapLevelFromScale (Real.log 2) (1 / Real.sqrt 2) = 0 ∧
    roundHalfAwayFromZero (-Real.logb 2 (1 / Real.sqrt 2)) = 1 ∧
    mipmapLevelFromScale (Real.log 2) (1 / Real.sqrt 2)
      ≠ roundHalfAwayFromZero (-Real.logb 2 (1 / Real.sqrt 2)) := by
  have hl : 0 < Real.log 2 := Real.log_pos (by norm_num)
  have hsq : 1 ≤ Real.sqrt 2 := by
    rw [Real.one_le_sqrt]; norm_num
  have hpos : 0 < Real.sqrt 2 := by linarith
  have hlog : Real.log (1 / Real.sqrt 2) = -(Real.log 2 / 2) := by
    rw [one_div, Real.log_inv, Real.log_sqrt (by norm_num)]
  have hb : -Real.logb 2 (1 / Real.sqrt 2) = 1 / 2 := by
    rw [Real.logb, hlog]
    field_simp
    ring
  have hm : mipmapLevelFromScale (Real.log 2) (1 / Real.sqrt 2) = 0 := by
    rw [mipmapLevelFromScale_eq_ceil, Real.log_div_log, hb]
    norm_num
  have hr : roundHalfAwayFromZero (-Real.logb 2 (1 / Real.sqrt 2)) = 1 := by
    rw [hb, roundHalfAwayFromZero, if_pos (by norm_num)]
    norm_num
  refine ⟨by positivity, ?_, hb, hm, hr, by rw [hm, hr]; decide⟩
  rw [div_le_one hpos]
  exact hsq

/-- C30: for every level `L` in `0..30`, `scaleFromMipmapLevel L` is `1 / 2 ^ L`, a
scale in `(0, 1]`, and `mipmapLevelFromScale` of it is `L`, both when `M_LN2` is `ln 2`
and when it is the constant of this header. -/
theorem mipmapLevelFromScale_scaleFromMipmapLevel (L : Nat) (hL : L ≤ 30) :
    (scaleFromMipmapLevel L : ℝ) = 1 / 2 ^ L ∧
    (0 : ℝ) < scaleFromMipmapLevel L ∧ (scaleFromMipmapLevel L : ℝ) ≤ 1 ∧
    mipmapLevelFromScale (Real.log 2) (scaleFromMipmapLevel L : ℝ) = L ∧
    mipmapLevelFromScale (M_LN2_header : ℝ) (scaleFromMipmapLevel L : ℝ) = L := by
  have hl1 := Real.log_two_gt_d9
  have hl2 := Real.log_two_lt_d9
  have hs := scaleFromMipmapLevel_eq L hL
  refine ⟨hs, ?_, ?_, ?_, ?_⟩
  · rw [hs]; positivity
  · rw [hs, div_le_one (by positivity)]
    exact one_le_pow₀ (by norm_num)
  · exact mipmapLevelFromScale_scaleFromMipmapLevel_of_close _ (by linarith) (by linarith)
      L hL
  · exact mipmapLevelFromScale_scaleFromMipmapLevel_of_close _
      (by norm_num [M_LN2_header]) (by norm_num [M_LN2_header]) L hL

/-- Witness of C30: the level `5`, of scale `1/32`. -/
theorem mipmapLevelFromScale_scaleFromMipmapLevel_witness :
    5 ≤ 30 ∧ (scaleFromMipmapLevel 5 : ℝ) = 1 / 2 ^ 5 ∧
    mipmapLevelFromScale (Real.log 2) (scaleFromMipmapLevel 5 : ℝ) = (5 : Nat) :=
  ⟨by decide, (mipmapLevelFromScale_scaleFromMipmapLevel 5 (by decide)).1,
    (mipmapLevelFromScale_scaleFromMipmapLevel 5 (by decide)).2.2.2.1⟩

/-! ### The guarded functors -/

section GuardedTheorems

variable {K : Type} [LinearOrderedField K]

/-- C25: the three guarded operators never divide by zero, for all inputs:
`divideFunctor` returns `0` when `B ≤ 0` and `A / B` otherwise, `colorDodgeFunctor`
returns `A` when `A ≥ M` and `M * min 1 (B / (M - A))` otherwise, `colorBurnFunctor`
returns `A` when `A ≤ 0` and `M * (1 - min 1 ((M - B) / A))` otherwise, and in each
second branch the denominator `B`, `M - A`, `A` is strictly positive. -/
theorem guarded_functors_never_divide_by_zero (maxValue : Int) (A B : K) :
    divideFunctorChecked A B = some (divideFunctor A B) ∧
    colorDodgeFunctorChecked maxValue A B = some (colorDodgeFunctor maxValue A B) ∧
    colorBurnFunctorChecked maxValue A B = some (colorBurnFunctor maxValue A B) ∧
    divideFunctor A B = (if B ≤ 0 then 0 else A / B) ∧
    colorDodgeFunctor maxValue A B
      = (if A ≥ (maxValue : K) then A else maxValue * min 1 (B / ((maxValue : K) - A))) ∧
    colorBurnFunctor maxValue A B
      = (if A ≤ 0 then A else maxValue * (1 - min 1 (((maxValue : K) - B) / A))) ∧
    (¬ B ≤ 0 → 0 < B) ∧ (¬ A ≥ (maxValue : K) → 0 < (maxValue : K) - A) ∧
    (¬ A ≤ 0 → 0 < A) := by
  refine ⟨?_, ?_, ?_, rfl, rfl, rfl, fun h => not_le.mp h,
    fun h => sub_pos.mpr (not_le.mp h), fun h => not_le.mp h⟩
  · unfold divideFunctorChecked divideFunctor
    split_ifs with h
    · rfl
    · exact checkedDiv_of_ne _ _ (ne_of_gt (not_le.mp h))
  · unfold colorDodgeFunctorChecked colorDodgeFunctor
    split_ifs with h
    · rfl
    · rw [checkedDiv_of_ne _ _ (ne_of_gt (sub_pos.mpr (not_le.mp h)))]
      rfl
  · unfold colorBurnFunctorChecked colorBurnFunctor
    split_ifs with h
    · rfl
    · rw [checkedDiv_of_ne _ _ (ne_of_gt (not_le.mp h))]
      rfl

/-- C28: hard-light is overlay with its arguments swapped: for every `maxValue ≥ 1` and
all `A`, `B`, `hardLightFunctor A B = overlayFunctor B A`; at the boundary `A = M / 2`,
where `hardLightFunctor` takes its second branch and `overlayFunctor` its first, both
are `B`. -/
theorem hardLightFunctor_eq_overlayFunctor (maxValue : Int) (hM : 1 ≤ maxValue) (A B : K) :
    hardLightFunctor maxValue A B = overlayFunctor maxValue B A ∧
    hardLightFunctor maxValue ((maxValue : K) / 2) B = B ∧
    overlayFunctor maxValue B ((maxValue : K) / 2) = B ∧
    ¬ ((maxValue : K) / 2 < (maxValue : K) / 2) ∧
    2 * ((maxValue : K) / 2 / (maxValue : K)) ≤ 1 := by
  have hm : (0 : K) < maxValue := by
    have : (1 : K) ≤ maxValue := by exact_mod_cast hM
    linarith
  have hne : (maxValue : K) ≠ 0 := ne_of_gt hm
  have key : ∀ A B : K, hardLightFunctor maxValue A B = overlayFunctor maxValue B A := by
    intro A B
    unfold hardLightFunctor overlayFunctor
    simp only
    by_cases h : A < (maxValue : K) / 2
    · have h2 : 2 * (A / (maxValue : K)) ≤ 1 := by
        rw [← mul_div_assoc, div_le_one hm]; linarith
      rw [if_pos h, if_pos h2]
      field_simp
      ring
    · rw [if_neg h]
      by_cases h2 : 2 * (A / (maxValue : K)) ≤ 1
      · have hA : A = (maxValue : K) / 2 := by
          rw [← mul_div_assoc, div_le_one hm] at h2
          linarith [not_lt.mp h]
        rw [if_pos h2, hA]
        field_simp
        ring
      · rw [if_neg h2]
  have hB : hardLightFunctor maxValue ((maxValue : K) / 2) B = B := by
    unfold hardLightFunctor
    rw [if_neg (lt_irrefl _)]
    field_simp
    ring
  refine ⟨key A B, hB, ?_, lt_irrefl _, ?_⟩
  · rw [← key]
    exact hB
  · rw [← mul_div_assoc, div_le_one hm]
    linarith

/-- Witness of C28: 8-bit values, `A` at the boundary `255 / 2`. -/
theorem hardLightFunctor_eq_overlayFunctor_witness :
    (1 : Int) ≤ 255 ∧
    hardLightFunctor 255 (255 / 2 : ℚ) 100 = overlayFunctor 255 100 (255 / 2 : ℚ) :=
  ⟨by decide, (hardLightFunctor_eq_overlayFunctor 255 (by decide) (255 / 2 : ℚ) 100).1⟩

end GuardedTheorems

/-! ### Range preservation -/

/-- A maximum times a value of `[0, 1]` is in `[0, maximum]`. -/
theorem mul_unit_mem (m e : ℝ) (hm : 0 ≤ m) (h0 : 0 ≤ e) (h1 : e ≤ 1) :
    0 ≤ m * e ∧ m * e ≤ m :=
  ⟨mul_nonneg hm h0, mul_le_of_le_one_right hm h1⟩

/-- A channel value of `[0, m]` is `m` times a value of `[0, 1]`. -/
theorem unit_pixel (m X : ℝ) (hm : 0 < m) (h0 : 0 ≤ X) (h1 : X ≤ m) :
    ∃ x : ℝ, 0 ≤ x ∧ x ≤ 1 ∧ X = x * m ∧ X / m = x :=
  ⟨X / m, div_nonneg h0 hm.le, (div_le_one hm).mpr h1, by field_simp, rfl⟩

/-- The three soft-light expressions map the unit square into `[0, 1]`, each on its
branch. -/
theorem softLight_unit (a b : ℝ) (ha0 : 0 ≤ a) (ha1 : a ≤ 1) (hb0 : 0 ≤ b) (hb1 : b ≤ 1) :
    (0 ≤ b - (1 - 2 * a) * b * (1 - b) ∧ (2 * a ≤ 1 → b - (1 - 2 * a) * b * (1 - b) ≤ 1)) ∧
    (¬ 2 * a ≤ 1 → 4 * b ≤ 1 →
      0 ≤ b + (2 * a - 1) * (4 * b * (4 * b + 1) * (b - 1) + 7 * b) ∧
      b + (2 * a - 1) * (4 * b * (4 * b + 1) * (b - 1) + 7 * b) ≤ 1) ∧
    (¬ 2 * a ≤ 1 →
      0 ≤ b + (2 * a - 1) * (Real.sqrt b - b) ∧ b + (2 * a - 1) * (Real.sqrt b - b) ≤ 1) := by
  refine ⟨⟨?_, fun h => ?_⟩, fun h h4 => ⟨?_, ?_⟩, fun h => ⟨?_, ?_⟩⟩
  · have : b - (1 - 2 * a) * b * (1 - b) = b * (b + 2 * a * (1 - b)) := by ring
    rw [this]
    exact mul_nonneg hb0 (by nlinarith)
  · nlinarith [mul_nonneg hb0 (sub_nonneg.mpr hb1),
      mul_nonneg (sub_nonneg.mpr h) (mul_nonneg hb0 (sub_nonneg.mpr hb1))]
  · have h' : 0 ≤ 2 * a - 1 := by linarith [not_le.mp h]
    have hg : 4 * b * (4 * b + 1) * (b - 1) + 7 * b = b * ((4 * b - 3 / 2) ^ 2 + 3 / 4) := by
      ring
    rw [hg]
    have : 0 ≤ b * ((4 * b - 3 / 2) ^ 2 + 3 / 4) := mul_nonneg hb0 (by positivity)
    nlinarith [mul_nonneg h' this]
  · have h' : 0 ≤ 2 * a - 1 := by linarith [not_le.mp h]
    have h'' : 2 * a - 1 ≤ 1 := by linarith
    have hg : 4 * b * (4 * b + 1) * (b - 1) + 7 * b = b * ((4 * b - 3 / 2) ^ 2 + 3 / 4) := by
      ring
    have hg0 : 0 ≤ 4 * b * (4 * b + 1) * (b - 1) + 7 * b := by
      rw [hg]; exact mul_nonneg hb0 (by positivity)
    have hg1 : 4 * b * (4 * b + 1) * (b - 1) + 7 * b ≤ 1 / 4 := by
      nlinarith [mul_nonneg hb0 (sub_nonneg.mpr h4),
        mul_nonneg (mul_nonneg hb0 hb0) (sub_nonneg.mpr h4), sq_nonneg (4 * b - 1)]
    nlinarith [mul_le_mul h'' hg1 hg0 (by norm_num : (0 : ℝ) ≤ 1)]
  · have h' : 0 ≤ 2 * a - 1 := by linarith [not_le.mp h]
    have hs : b ≤ Real.sqrt b := by
      have h1 : Real.sqrt b * Real.sqrt b = b := Real.mul_self_sqrt hb0
      have h2 : Real.sqrt b ≤ 1 := Real.sqrt_le_one.mpr hb1
      have h3 : 0 ≤ Real.sqrt b := Real.sqrt_nonneg b
      nlinarith
    nlinarith [mul_nonneg h' (sub_nonneg.mpr hs)]
  · have h' : 0 ≤ 2 * a - 1 := by linarith [not_le.mp h]
    have h'' : 2 * a - 1 ≤ 1 := by linarith
    have h2 : Real.sqrt b ≤ 1 := Real.sqrt_le_one.mpr hb1
    have hs : b ≤ Real.sqrt b := by
      have h1 : Real.sqrt b * Real.sqrt b = b := Real.mul_self_sqrt hb0
      have h3 : 0 ≤ Real.sqrt b := Real.sqrt_nonneg b
      nlinarith
    nlinarith [mul_le_mul h'' (le_refl (Real.sqrt b - b)) (sub_nonneg.mpr hs)
      (by norm_num : (0 : ℝ) ≤ 1)]

/-- The functors multiply, screen and exclusion keep `[0, M]`. -/
theorem bilinear_functors_range (maxValue : Int) (hM : 1 ≤ maxValue) (A B : ℝ)
    (hA0 : 0 ≤ A) (hA1 : A ≤ maxValue) (hB0 : 0 ≤ B) (hB1 : B ≤ maxValue) :
    (0 ≤ multiplyFunctor maxValue A B ∧ multiplyFunctor maxValue A B ≤ maxValue) ∧
    (0 ≤ screenFunctor maxValue A B ∧ screenFunctor maxValue A B ≤ maxValue) ∧
    (0 ≤ exclusionFunctor maxValue A B ∧ exclusionFunctor maxValue A B ≤ maxValue) := by
  have hm1 : (1 : ℝ) ≤ maxValue := by exact_mod_cast hM
  have hm : (0 : ℝ) < maxValue := by linarith
  obtain ⟨a, ha0, ha1, hA, hAm⟩ := unit_pixel maxValue A hm hA0 hA1
  obtain ⟨b, hb0, hb1, hB, hBm⟩ := unit_pixel maxValue B hm hB0 hB1
  have hab : A * B / (maxValue : ℝ) = maxValue * (a * b) := by
    rw [hA, hB]; field_simp; ring
  have h2ab : 2 * A * B / (maxValue : ℝ) = maxValue * (2 * a * b) := by
    rw [hA, hB]; field_simp; ring
  have hab0 : 0 ≤ a * b := mul_nonneg ha0 hb0
  have hab1 : 0 ≤ (1 - a) * (1 - b) := mul_nonneg (sub_nonneg.mpr ha1) (sub_nonneg.mpr hb1)
  have ha1b : 0 ≤ a * (1 - b) := mul_nonneg ha0 (sub_nonneg.mpr hb1)
  have hb1a : 0 ≤ b * (1 - a) := mul_nonneg hb0 (sub_nonneg.mpr ha1)
  refine ⟨?_, ?_, ?_⟩
  · rw [multiplyFunctor, hab]
    exact mul_unit_mem _ _ hm.le hab0 (by linarith)
  · have e : screenFunctor maxValue A B = maxValue * (a + b - a * b) := by
      rw [screenFunctor, hab, hA, hB]; ring
    rw [e]
    exact mul_unit_mem _ _ hm.le (by linarith) (by linarith)
  · have e : exclusionFunctor maxValue A B = maxValue * (a + b - 2 * a * b) := by
      rw [exclusionFunctor, h2ab, hA, hB]; ring
    rw [e]
    exact mul_unit_mem _ _ hm.le (by linarith) (by linarith)

/-- The functor overlay keeps `[0, M]`. -/
theorem overlayFunctor_range (maxValue : Int) (hM : 1 ≤ maxValue) (A B : ℝ)
    (hA0 : 0 ≤ A) (hA1 : A ≤ maxValue) (hB0 : 0 ≤ B) (hB1 : B ≤ maxValue) :
    0 ≤ overlayFunctor maxValue A B ∧ overlayFunctor maxValue A B ≤ maxValue := by
  have hm1 : (1 : ℝ) ≤ maxValue := by exact_mod_cast hM
  have hm : (0 : ℝ) < maxValue := by linarith
  obtain ⟨a, ha0, ha1, hA, hAm⟩ := unit_pixel maxValue A hm hA0 hA1
  obtain ⟨b, hb0, hb1, hB, hBm⟩ := unit_pixel maxValue B hm hB0 hB1
  unfold overlayFunctor
  rw [hAm, hBm]
  simp only
  split_ifs with h
  · have : 0 ≤ a * (1 - 2 * b) := mul_nonneg ha0 (by linarith)
    exact mul_unit_mem _ _ hm.le (by nlinarith [mul_nonneg ha0 hb0]) (by linarith)
  · have : 0 ≤ (2 * b - 1) * (1 - a) := mul_nonneg (by linarith [not_le.mp h])
      (sub_nonneg.mpr ha1)
    have : 0 ≤ (1 - b) * (1 - a) := mul_nonneg (sub_nonneg.mpr hb1) (sub_nonneg.mpr ha1)
    exact mul_unit_mem _ _ hm.le (by linarith) (by linarith)

/-- The functor hard-light keeps `[0, M]`. -/
theorem hardLightFunctor_range (maxValue : Int) (hM : 1 ≤ maxValue) (A B : ℝ)
    (hA0 : 0 ≤ A) (hA1 : A ≤ maxValue) (hB0 : 0 ≤ B) (hB1 : B ≤ maxValue) :
    0 ≤ hardLightFunctor maxValue A B ∧ hardLightFunctor maxValue A B ≤ maxValue := by
  have hm1 : (1 : ℝ) ≤ maxValue := by exact_mod_cast hM
  have hm : (0 : ℝ) < maxValue := by linarith
  obtain ⟨a, ha0, ha1, hA, hAm⟩ := unit_pixel maxValue A hm hA0 hA1
  obtain ⟨b, hb0, hb1, hB, hBm⟩ := unit_pixel maxValue B hm hB0 hB1
  have h2ab : 2 * A * B / (maxValue : ℝ) = maxValue * (2 * a * b) := by
    rw [hA, hB]; field_simp; ring
  have hab0 : 0 ≤ a * b := mul_nonneg ha0 hb0
  have hab1 : 0 ≤ (1 - a) * (1 - b) := mul_nonneg (sub_nonneg.mpr ha1) (sub_nonneg.mpr hb1)
  unfold hardLightFunctor
  rw [hAm, hBm, h2ab]
  split_ifs with h
  · have ha2 : 2 * a ≤ 1 := by
      rw [hA] at h
      have : a * (maxValue : ℝ) < (1 / 2) * maxValue := by linarith
      have := lt_of_mul_lt_mul_right this hm.le
      linarith
    have : 0 ≤ (1 - 2 * a) * b := mul_nonneg (by linarith) hb0
    exact mul_unit_mem _ _ hm.le (by linarith) (by linarith)
  · have ha2 : 1 ≤ 2 * a := by
      rw [hA] at h
      have : (1 / 2) * (maxValue : ℝ) ≤ a * maxValue := by linarith [not_lt.mp h]
      have := le_of_mul_le_mul_right this hm
      linarith
    have : 0 ≤ (2 * a - 1) * (1 - b) := mul_nonneg (by linarith) (sub_nonneg.mpr hb1)
    exact mul_unit_mem _ _ hm.le (by linarith) (by linarith)

/-- The functor soft-light keeps `[0, M]`. -/
theorem softLightFunctor_range (maxValue : Int) (hM : 1 ≤ maxValue) (A B : ℝ)
    (hA0 : 0 ≤ A) (hA1 : A ≤ maxValue) (hB0 : 0 ≤ B) (hB1 : B ≤ maxValue) :
    0 ≤ softLightFunctor maxValue A B ∧ softLightFunctor maxValue A B ≤ maxValue := by
  have hm1 : (1 : ℝ) ≤ maxValue := by exact_mod_cast hM
  have hm : (0 : ℝ) < maxValue := by linarith
  obtain ⟨a, ha0, ha1, hA, hAm⟩ := unit_pixel maxValue A hm hA0 hA1
  obtain ⟨b, hb0, hb1, hB, hBm⟩ := unit_pixel maxValue B hm hB0 hB1
  obtain ⟨⟨s1, s2⟩, s3, s4⟩ := softLight_unit a b ha0 ha1 hb0 hb1
  unfold softLightFunctor
  rw [hAm, hBm]
  simp only [CMath.sqrt]
  split_ifs with h h4
  · exact mul_unit_mem _ _ hm.le s1 (s2 h)
  · exact mul_unit_mem _ _ hm.le (s3 h h4).1 (s3 h h4).2
  · exact mul_unit_mem _ _ hm.le (s4 h).1 (s4 h).2

/-- The functor color-dodge keeps `[0, M]`. -/
theorem colorDodgeFunctor_range (maxValue : Int) (hM : 1 ≤ maxValue) (A B : ℝ)
    (hA0 : 0 ≤ A) (hA1 : A ≤ maxValue) (hB0 : 0 ≤ B) :
    0 ≤ colorDodgeFunctor maxValue A B ∧ colorDodgeFunctor maxValue A B ≤ maxValue := by
  have hm1 : (1 : ℝ) ≤ maxValue := by exact_mod_cast hM
  have hm : (0 : ℝ) < maxValue := by linarith
  unfold colorDodgeFunctor
  split_ifs with h
  · exact ⟨hA0, hA1⟩
  · have hd : 0 ≤ (maxValue : ℝ) - A := by linarith [not_le.mp h]
    have hq : 0 ≤ B / ((maxValue : ℝ) - A) := div_nonneg hB0 hd
    exact mul_unit_mem _ _ hm.le (le_min zero_le_one hq) (min_le_left _ _)

/-- The functor color-burn keeps `[0, M]`. -/
theorem colorBurnFunctor_range (maxValue : Int) (hM : 1 ≤ maxValue) (A B : ℝ)
    (hA0 : 0 ≤ A) (hB1 : B ≤ maxValue) :
    0 ≤ colorBurnFunctor maxValue A B ∧ colorBurnFunctor maxValue A B ≤ maxValue := by
  have hm1 : (1 : ℝ) ≤ maxValue := by exact_mod_cast hM
  have hm : (0 : ℝ) < maxValue := by linarith
  unfold colorBurnFunctor
  split_ifs with h
  · exact ⟨hA0, le_trans h hm.le⟩
  · have hd : 0 ≤ (maxValue : ℝ) - B := by linarith
    have hq : 0 ≤ ((maxValue : ℝ) - B) / A := div_nonneg hd hA0
    have h1 : min 1 (((maxValue : ℝ) - B) / A) ≤ 1 := min_le_left _ _
    have h0 : 0 ≤ min 1 (((maxValue : ℝ) - B) / A) := le_min zero_le_one hq
    exact mul_unit_mem _ _ hm.le (by linarith) (by linarith)

/-- C29: range preservation for real-valued pixels: for every `maxValue ≥ 1` and all
real `A`, `B` in `[0, M]`, the results of `multiplyFunctor`, `screenFunctor`,
`exclusionFunctor`, `overlayFunctor`, `hardLightFunctor`, `softLightFunctor`,
`colorDodgeFunctor` and `colorBurnFunctor` are in `[0, M]`. -/
theorem functors_range (maxValue : Int) (hM : 1 ≤ maxValue) (A B : ℝ)
    (hA0 : 0 ≤ A) (hA1 : A ≤ maxValue) (hB0 : 0 ≤ B) (hB1 : B ≤ maxValue) :
    (0 ≤ multiplyFunctor maxValue A B ∧ multiplyFunctor maxValue A B ≤ maxValue) ∧
    (0 ≤ screenFunctor maxValue A B ∧ screenFunctor maxValue A B ≤ maxValue) ∧
    (0 ≤ exclusionFunctor maxValue A B ∧ exclusionFunctor maxValue A B ≤ maxValue) ∧
    (0 ≤ overlayFunctor maxValue A B ∧ overlayFunctor maxValue A B ≤ maxValue) ∧
    (0 ≤ hardLightFunctor maxValue A B ∧ hardLightFunctor maxValue A B ≤ maxValue) ∧
    (0 ≤ softLightFunctor maxValue A B ∧ softLightFunctor maxValue A B ≤ maxValue) ∧
    (0 ≤ colorDodgeFunctor maxValue A B ∧ colorDodgeFunctor maxValue A B ≤ maxValue) ∧
    (0 ≤ colorBurnFunctor maxValue A B ∧ colorBurnFunctor maxValue A B ≤ maxValue) := by
  obtain ⟨h1, h2, h3⟩ := bilinear_functors_range maxValue hM A B hA0 hA1 hB0 hB1
  exact ⟨h1, h2, h3, overlayFunctor_range maxValue hM A B hA0 hA1 hB0 hB1,
    hardLightFunctor_range maxValue hM A B hA0 hA1 hB0 hB1,
    softLightFunctor_range maxValue hM A B hA0 hA1 hB0 hB1,
    colorDodgeFunctor_range maxValue hM A B hA0 hA1 hB0,
    colorBurnFunctor_range maxValue hM A B hA0 hB1⟩

/-- Witness of C29: the 8-bit values `A = 200`, `B = 100`. -/
theorem functors_range_witness :
    (1 : Int) ≤ 255 ∧ (0 : ℝ) ≤ 200 ∧ (200 : ℝ) ≤ ((255 : Int) : ℝ) ∧ (0 : ℝ) ≤ 100 ∧
    (100 : ℝ) ≤ ((255 : Int) : ℝ) ∧
    (0 ≤ softLightFunctor 255 (200 : ℝ) 100 ∧
      softLightFunctor 255 (200 : ℝ) 100 ≤ ((255 : Int) : ℝ)) :=
  ⟨by decide, by norm_num, by norm_num, by norm_num, by norm_num,
    (functors_range 255 (by decide) 200 100 (by norm_num) (by norm_num) (by norm_num)
      (by norm_num)).2.2.2.2.2.1⟩

end MergeImages2D

end OFX
